import Mathlib

/-!
Verification of the Lip-Sync speech-to-viseme pipeline.

Shallow embedding of:
* the CMU-dictionary phoneme estimator (`phoneme-cmu.ts`, stress-aware version):
  `ARPABET_TO_RHUBARB`, `WORD_DICT`, `applyRules`, `STRESS_SCALE`,
  `wordToRhubarb`, `estimateWithCMU`;
* the Rhubarb refinement acceptance gate (`useSpeechRecognition.ts`,
  `refinePhonemes`);
* the RMS amplitude-envelope extractor (`audio-manager.ts`,
  `extractAmplitudeEnvelope`);
* the per-frame playback driver of the avatar component (`useFrame` body:
  viseme weight table, look-ahead blending, amplitude gate, exponential lerp).

Machine reals of the source are modelled as `ℚ` where the source only uses
field operations, and as `ℝ` where it takes square roots, powers or
exponentials.
-/

namespace LipSync

/-- A timed mouth cue `{ start, end, value }` as produced by the estimator;
`value` is one of the 9 Rhubarb letters A B C D E F G H X. -/
structure MouthCue where
  start : ℚ
  «end» : ℚ
  value : Char
deriving DecidableEq, Repr

/-- The 9-letter closed Rhubarb viseme alphabet. -/
def RHUBARB_LETTERS : List Char := ['A', 'B', 'C', 'D', 'E', 'F', 'G', 'H', 'X']

-- ---------------------------------------------------------------------------
-- 1.  Phoneme estimator (phoneme-cmu.ts, stress-aware version)
-- ---------------------------------------------------------------------------

/-- The fixed many-to-one ARPAbet → Rhubarb-letter table
(`ARPABET_TO_RHUBARB` in `phoneme-cmu.ts`). -/
def ARPABET_TO_RHUBARB : List (String × Char) := [
  ("AA", 'A'), ("AE", 'A'), ("AH", 'A'), ("AW", 'A'), ("AY", 'A'),
  ("EH", 'A'), ("EY", 'A'),
  ("IH", 'H'), ("IY", 'H'),
  ("OW", 'C'), ("AO", 'C'), ("OY", 'C'),
  ("UH", 'E'), ("UW", 'E'), ("ER", 'C'),
  ("B", 'B'), ("M", 'B'), ("P", 'B'),
  ("F", 'F'), ("V", 'F'),
  ("DH", 'D'), ("TH", 'D'),
  ("D", 'D'), ("T", 'D'), ("N", 'D'),
  ("L", 'C'), ("R", 'C'), ("W", 'G'), ("Y", 'H'),
  ("Z", 'H'), ("S", 'H'), ("ZH", 'H'), ("SH", 'H'),
  ("CH", 'H'), ("JH", 'H'),
  ("K", 'G'), ("G", 'G'), ("NG", 'G'),
  ("HH", 'H')]

/-- The built-in high-frequency pronunciation dictionary (`WORD_DICT` in
`phoneme-cmu.ts`): word → ARPAbet transcription.  The entries are
stress-stripped (no trailing 0/1/2 digits), exactly as in the source. -/
def WORD_DICT : List (String × List String) := [
  ("a", ["AH"]),
  ("the", ["DH", "AH"]),
  ("is", ["IH", "Z"]),
  ("in", ["IH", "N"]),
  ("it", ["IH", "T"]),
  ("of", ["AH", "V"]),
  ("and", ["AE", "N", "D"]),
  ("to", ["T", "UW"]),
  ("that", ["DH", "AE", "T"]),
  ("was", ["W", "AH", "Z"]),
  ("he", ["HH", "IY"]),
  ("for", ["F", "AO", "R"]),
  ("on", ["AO", "N"]),
  ("are", ["AA", "R"]),
  ("with", ["W", "IH", "DH"]),
  ("as", ["AE", "Z"]),
  ("i", ["AY"]),
  ("his", ["HH", "IH", "Z"]),
  ("they", ["DH", "EY"]),
  ("be", ["B", "IY"]),
  ("at", ["AE", "T"]),
  ("one", ["W", "AH", "N"]),
  ("have", ["HH", "AE", "V"]),
  ("this", ["DH", "IH", "S"]),
  ("from", ["F", "R", "AH", "M"]),
  ("or", ["AO", "R"]),
  ("had", ["HH", "AE", "D"]),
  ("by", ["B", "AY"]),
  ("not", ["N", "AA", "T"]),
  ("but", ["B", "AH", "T"]),
  ("what", ["W", "AH", "T"]),
  ("all", ["AO", "L"]),
  ("were", ["W", "ER"]),
  ("we", ["W", "IY"]),
  ("when", ["W", "EH", "N"]),
  ("your", ["Y", "AO", "R"]),
  ("can", ["K", "AE", "N"]),
  ("said", ["S", "EH", "D"]),
  ("there", ["DH", "EH", "R"]),
  ("use", ["Y", "UW", "Z"]),
  ("an", ["AE", "N"]),
  ("each", ["IY", "CH"]),
  ("which", ["W", "IH", "CH"]),
  ("she", ["SH", "IY"]),
  ("do", ["D", "UW"]),
  ("how", ["HH", "AW"]),
  ("their", ["DH", "EH", "R"]),
  ("if", ["IH", "F"]),
  ("up", ["AH", "P"]),
  ("other", ["AH", "DH", "ER"]),
  ("about", ["AH", "B", "AW", "T"]),
  ("out", ["AW", "T"]),
  ("many", ["M", "EH", "N", "IY"]),
  ("then", ["DH", "EH", "N"]),
  ("them", ["DH", "EH", "M"]),
  ("these", ["DH", "IY", "Z"]),
  ("so", ["S", "OW"]),
  ("some", ["S", "AH", "M"]),
  ("her", ["HH", "ER"]),
  ("would", ["W", "UH", "D"]),
  ("make", ["M", "EY", "K"]),
  ("him", ["HH", "IH", "M"]),
  ("into", ["IH", "N", "T", "UW"]),
  ("time", ["T", "AY", "M"]),
  ("has", ["HH", "AE", "Z"]),
  ("look", ["L", "UH", "K"]),
  ("two", ["T", "UW"]),
  ("more", ["M", "AO", "R"]),
  ("go", ["G", "OW"]),
  ("see", ["S", "IY"]),
  ("no", ["N", "OW"]),
  ("way", ["W", "EY"]),
  ("could", ["K", "UH", "D"]),
  ("my", ["M", "AY"]),
  ("than", ["DH", "AH", "N"]),
  ("first", ["F", "ER", "S", "T"]),
  ("been", ["B", "IH", "N"]),
  ("call", ["K", "AO", "L"]),
  ("who", ["HH", "UW"]),
  ("its", ["IH", "T", "S"]),
  ("now", ["N", "AW"]),
  ("get", ["G", "EH", "T"]),
  ("come", ["K", "AH", "M"]),
  ("made", ["M", "EY", "D"]),
  ("may", ["M", "EY"]),
  ("part", ["P", "AA", "R", "T"]),
  ("over", ["OW", "V", "ER"]),
  ("new", ["N", "UW"]),
  ("sound", ["S", "AW", "N", "D"]),
  ("take", ["T", "EY", "K"]),
  ("only", ["OW", "N", "L", "IY"]),
  ("little", ["L", "IH", "T", "AH", "L"]),
  ("work", ["W", "ER", "K"]),
  ("know", ["N", "OW"]),
  ("place", ["P", "L", "EY", "S"]),
  ("year", ["Y", "IH", "R"]),
  ("live", ["L", "IH", "V"]),
  ("back", ["B", "AE", "K"]),
  ("give", ["G", "IH", "V"]),
  ("most", ["M", "OW", "S", "T"]),
  ("very", ["V", "EH", "R", "IY"]),
  ("after", ["AE", "F", "T", "ER"]),
  ("thing", ["TH", "IH", "NG"]),
  ("our", ["AW", "R"]),
  ("just", ["JH", "AH", "S", "T"]),
  ("name", ["N", "EY", "M"]),
  ("good", ["G", "UH", "D"]),
  ("sentence", ["S", "EH", "N", "T", "AH", "N", "S"]),
  ("man", ["M", "AE", "N"]),
  ("think", ["TH", "IH", "NG", "K"]),
  ("say", ["S", "EY"]),
  ("great", ["G", "R", "EY", "T"]),
  ("where", ["W", "EH", "R"]),
  ("help", ["HH", "EH", "L", "P"]),
  ("through", ["TH", "R", "UW"]),
  ("much", ["M", "AH", "CH"]),
  ("before", ["B", "IH", "F", "AO", "R"]),
  ("line", ["L", "AY", "N"]),
  ("right", ["R", "AY", "T"]),
  ("too", ["T", "UW"]),
  ("mean", ["M", "IY", "N"]),
  ("old", ["OW", "L", "D"]),
  ("any", ["EH", "N", "IY"]),
  ("same", ["S", "EY", "M"]),
  ("tell", ["T", "EH", "L"]),
  ("boy", ["B", "OY"]),
  ("follow", ["F", "AA", "L", "OW"]),
  ("came", ["K", "EY", "M"]),
  ("want", ["W", "AA", "N", "T"]),
  ("show", ["SH", "OW"]),
  ("also", ["AO", "L", "S", "OW"]),
  ("around", ["AH", "R", "AW", "N", "D"]),
  ("form", ["F", "AO", "R", "M"]),
  ("three", ["TH", "R", "IY"]),
  ("small", ["S", "M", "AO", "L"]),
  ("set", ["S", "EH", "T"]),
  ("put", ["P", "UH", "T"]),
  ("end", ["EH", "N", "D"]),
  ("does", ["D", "AH", "Z"]),
  ("another", ["AH", "N", "AH", "DH", "ER"]),
  ("well", ["W", "EH", "L"]),
  ("large", ["L", "AA", "R", "JH"]),
  ("often", ["AO", "F", "AH", "N"]),
  ("hand", ["HH", "AE", "N", "D"]),
  ("high", ["HH", "AY"]),
  ("hold", ["HH", "OW", "L", "D"]),
  ("between", ["B", "IH", "T", "W", "IY", "N"]),
  ("world", ["W", "ER", "L", "D"]),
  ("here", ["HH", "IH", "R"]),
  ("head", ["HH", "EH", "D"]),
  ("yet", ["Y", "EH", "T"]),
  ("long", ["L", "AO", "NG"]),
  ("down", ["D", "AW", "N"]),
  ("day", ["D", "EY"]),
  ("ever", ["EH", "V", "ER"]),
  ("found", ["F", "AW", "N", "D"]),
  ("still", ["S", "T", "IH", "L"]),
  ("plant", ["P", "L", "AE", "N", "T"]),
  ("should", ["SH", "UH", "D"]),
  ("country", ["K", "AH", "N", "T", "R", "IY"]),
  ("never", ["N", "EH", "V", "ER"]),
  ("started", ["S", "T", "AA", "R", "T", "IH", "D"]),
  ("city", ["S", "IH", "T", "IY"]),
  ("earth", ["ER", "TH"]),
  ("eye", ["AY"]),
  ("light", ["L", "AY", "T"]),
  ("thought", ["TH", "AO", "T"]),
  ("need", ["N", "IY", "D"]),
  ("land", ["L", "AE", "N", "D"]),
  ("asked", ["AE", "S", "K", "T"]),
  ("change", ["CH", "EY", "N", "JH"]),
  ("again", ["AH", "G", "EH", "N"]),
  ("off", ["AO", "F"]),
  ("play", ["P", "L", "EY"]),
  ("spell", ["S", "P", "EH", "L"]),
  ("air", ["EH", "R"]),
  ("away", ["AH", "W", "EY"]),
  ("animal", ["AE", "N", "AH", "M", "AH", "L"]),
  ("house", ["HH", "AW", "S"]),
  ("point", ["P", "OY", "N", "T"]),
  ("page", ["P", "EY", "JH"]),
  ("letter", ["L", "EH", "T", "ER"]),
  ("mother", ["M", "AH", "DH", "ER"]),
  ("answer", ["AE", "N", "S", "ER"]),
  ("study", ["S", "T", "AH", "D", "IY"]),
  ("word", ["W", "ER", "D"]),
  ("friend", ["F", "R", "EH", "N", "D"]),
  ("left", ["L", "EH", "F", "T"]),
  ("few", ["F", "Y", "UW"]),
  ("while", ["W", "AY", "L"]),
  ("along", ["AH", "L", "AO", "NG"]),
  ("might", ["M", "AY", "T"]),
  ("close", ["K", "L", "OW", "S"]),
  ("something", ["S", "AH", "M", "TH", "IH", "NG"]),
  ("open", ["OW", "P", "AH", "N"]),
  ("seem", ["S", "IY", "M"]),
  ("together", ["T", "AH", "G", "EH", "DH", "ER"]),
  ("next", ["N", "EH", "K", "S", "T"]),
  ("white", ["W", "AY", "T"]),
  ("children", ["CH", "IH", "L", "D", "R", "AH", "N"]),
  ("begin", ["B", "IH", "G", "IH", "N"]),
  ("got", ["G", "AA", "T"]),
  ("walk", ["W", "AO", "K"]),
  ("example", ["IH", "G", "Z", "AE", "M", "P", "AH", "L"]),
  ("ease", ["IY", "Z"]),
  ("paper", ["P", "EY", "P", "ER"]),
  ("group", ["G", "R", "UW", "P"]),
  ("always", ["AO", "L", "W", "EY", "Z"]),
  ("music", ["M", "Y", "UW", "Z", "IH", "K"]),
  ("those", ["DH", "OW", "Z"]),
  ("both", ["B", "OW", "TH"]),
  ("mark", ["M", "AA", "R", "K"]),
  ("book", ["B", "UH", "K"]),
  ("until", ["AH", "N", "T", "IH", "L"]),
  ("mile", ["M", "AY", "L"]),
  ("river", ["R", "IH", "V", "ER"]),
  ("car", ["K", "AA", "R"]),
  ("feet", ["F", "IY", "T"]),
  ("care", ["K", "EH", "R"]),
  ("low", ["L", "OW"]),
  ("why", ["W", "AY"]),
  ("person", ["P", "ER", "S", "AH", "N"]),
  ("enough", ["IH", "N", "AH", "F"]),
  ("eat", ["IY", "T"]),
  ("face", ["F", "EY", "S"]),
  ("watch", ["W", "AA", "CH"]),
  ("far", ["F", "AA", "R"]),
  ("indian", ["IH", "N", "D", "IY", "AH", "N"]),
  ("real", ["R", "IY", "L"]),
  ("almost", ["AO", "L", "M", "OW", "S", "T"]),
  ("let", ["L", "EH", "T"]),
  ("above", ["AH", "B", "AH", "V"]),
  ("girl", ["G", "ER", "L"]),
  ("sometimes", ["S", "AH", "M", "T", "AY", "M", "Z"]),
  ("mountain", ["M", "AW", "N", "T", "AH", "N"]),
  ("cut", ["K", "AH", "T"]),
  ("young", ["Y", "AH", "NG"]),
  ("talk", ["T", "AO", "K"]),
  ("soon", ["S", "UW", "N"]),
  ("list", ["L", "IH", "S", "T"]),
  ("song", ["S", "AO", "NG"]),
  ("leave", ["L", "IY", "V"]),
  ("family", ["F", "AE", "M", "AH", "L", "IY"]),
  ("body", ["B", "AA", "D", "IY"]),
  ("color", ["K", "AH", "L", "ER"]),
  ("stand", ["S", "T", "AE", "N", "D"]),
  ("sun", ["S", "AH", "N"]),
  ("questions", ["K", "W", "EH", "S", "CH", "AH", "N", "Z"]),
  ("fish", ["F", "IH", "SH"]),
  ("area", ["EH", "R", "IY", "AH"]),
  ("happened", ["HH", "AE", "P", "AH", "N", "D"]),
  ("problem", ["P", "R", "AA", "B", "L", "AH", "M"]),
  ("yes", ["Y", "EH", "S"]),
  ("ago", ["AH", "G", "OW"]),
  ("side", ["S", "AY", "D"]),
  ("knew", ["N", "UW"]),
  ("love", ["L", "AH", "V"]),
  ("cross", ["K", "R", "AO", "S"]),
  ("speak", ["S", "P", "IY", "K"]),
  ("run", ["R", "AH", "N"]),
  ("easy", ["IY", "Z", "IY"]),
  ("write", ["R", "AY", "T"]),
  ("already", ["AO", "L", "R", "EH", "D", "IY"]),
  ("stop", ["S", "T", "AA", "P"]),
  ("once", ["W", "AH", "N", "S"]),
  ("idea", ["AY", "D", "IY", "AH"]),
  ("every", ["EH", "V", "R", "IY"]),
  ("fire", ["F", "AY", "R"]),
  ("draw", ["D", "R", "AO"]),
  ("under", ["AH", "N", "D", "ER"]),
  ("black", ["B", "L", "AE", "K"]),
  ("read", ["R", "IY", "D"]),
  ("short", ["SH", "AO", "R", "T"]),
  ("numeral", ["N", "UW", "M", "ER", "AH", "L"]),
  ("hear", ["HH", "IH", "R"]),
  ("later", ["L", "EY", "T", "ER"]),
  ("miss", ["M", "IH", "S"]),
  ("true", ["T", "R", "UW"]),
  ("life", ["L", "AY", "F"]),
  ("red", ["R", "EH", "D"]),
  ("door", ["D", "AO", "R"]),
  ("sure", ["SH", "UH", "R"]),
  ("become", ["B", "IH", "K", "AH", "M"]),
  ("hello", ["HH", "AH", "L", "OW"]),
  ("goodbye", ["G", "UH", "D", "B", "AY"]),
  ("please", ["P", "L", "IY", "Z"]),
  ("thank", ["TH", "AE", "NG", "K"]),
  ("thanks", ["TH", "AE", "NG", "K", "S"]),
  ("sorry", ["S", "AO", "R", "IY"]),
  ("okay", ["OW", "K", "EY"]),
  ("avatar", ["AE", "V", "AH", "T", "AA", "R"]),
  ("speaking", ["S", "P", "IY", "K", "IH", "NG"]),
  ("listening", ["L", "IH", "S", "AH", "N", "IH", "NG"]),
  ("welcome", ["W", "EH", "L", "K", "AH", "M"]),
  ("understand", ["AH", "N", "D", "ER", "S", "T", "AE", "N", "D"]),
]

/-- `s` starts with one of the literal alternatives (the `/^(p1|p2|…)/i`
tests of the G2P rules; inputs are already lower-case). -/
def startsWithAny (s : List Char) (pats : List String) : Bool :=
  pats.any (fun p => s.take p.length = p.toList)

/-- First-character class test, modelling the single-letter rules
`/^[bmp]/i` etc. (inputs are already lower-case). -/
def firstCharIn (s : List Char) (cs : List Char) : Bool :=
  match s with
  | [] => false
  | c :: _ => c ∈ cs

/-- The ordered G2P rule list of `applyRules` in `phoneme-cmu.ts`: a test on
the remaining characters, the produced Rhubarb letter, and the number of
characters consumed — longest patterns first, in source order.  The `a_e`
alternative of the source is a literal three-character pattern (it can never
match a cleaned word, which has no underscore) and, like the source, its
rule advances 2. -/
def G2P_RULES : List ((List Char → Bool) × Char × Nat) := [
  (fun s => startsWithAny s ["th", "dh"], 'D', 2),
  (fun s => startsWithAny s ["sh", "zh"], 'H', 2),
  (fun s => startsWithAny s ["ch"], 'H', 2),
  (fun s => startsWithAny s ["ph"], 'F', 2),
  (fun s => startsWithAny s ["wh"], 'G', 2),
  (fun s => startsWithAny s ["ng", "nk"], 'G', 2),
  (fun s => startsWithAny s ["ck"], 'G', 2),
  (fun s => startsWithAny s ["qu"], 'G', 2),
  (fun s => startsWithAny s ["ee", "ea", "ey", "ei", "ie"], 'H', 2),
  (fun s => startsWithAny s ["oa", "oe", "oo", "ou", "ow", "ue", "ui"], 'C', 2),
  (fun s => startsWithAny s ["ai", "ay", "au", "aw", "a_e"], 'A', 2),
  (fun s => firstCharIn s ['b', 'm', 'p'], 'B', 1),
  (fun s => firstCharIn s ['f', 'v'], 'F', 1),
  (fun s => firstCharIn s ['s', 'z', 'j', 'x'], 'H', 1),
  (fun s => firstCharIn s ['k', 'g'], 'G', 1),
  (fun s => firstCharIn s ['d', 't'], 'D', 1),
  (fun s => firstCharIn s ['n'], 'D', 1),
  (fun s => firstCharIn s ['l', 'r'], 'C', 1),
  (fun s => firstCharIn s ['w'], 'G', 1),
  (fun s => firstCharIn s ['y'], 'H', 1),
  (fun s => firstCharIn s ['h'], 'H', 1),
  (fun s => firstCharIn s ['a', 'e', 'i', 'o', 'u'], 'A', 1)]

/-- `applyRules` of `phoneme-cmu.ts`: try each rule on the remaining string
in order and return the first match's Rhubarb letter and consumed length, or
`none` when no rule matches (the source's `for … if (re.test(s)) return …;
return null`). -/
def applyRules (s : List Char) : Option (Char × Nat) :=
  (G2P_RULES.find? (fun rule => rule.1 s)).map (fun rule => rule.2)

/-- Stress multipliers for vowel duration (`STRESS_SCALE` in
`phoneme-cmu.ts`): 1 ↦ 1.45 (primary), 2 ↦ 1.15 (secondary),
0 ↦ 0.65 (unstressed), −1 (consonant) and anything else ↦ 1.0
(the source looks the value up with a `?? 1.0` default). -/
def STRESS_SCALE (stress : ℤ) : ℚ :=
  if stress = 1 then 1.45
  else if stress = 2 then 1.15
  else if stress = 0 then 0.65
  else 1.0

/-- A phoneme token `{ r, stress }`: Rhubarb letter plus stress level
(1 primary, 2 secondary, 0 unstressed, −1 consonant / not applicable). -/
structure PhonemeToken where
  r : Char
  stress : ℤ
deriving DecidableEq, Repr

/-- `isVowel` of `phoneme-cmu.ts`: the Rhubarb letters whose shapes hold
longer than consonants. -/
def isVowel (r : Char) : Bool := r ∈ ['A', 'C', 'E', 'H']

/-- The G2P fallback loop of `wordToRhubarb`: the fuel argument models the
source's `safety++ < 60` guard (at most 60 iterations), `vowelSeen` marks
whether a vowel-class letter was already emitted (first vowel gets primary
stress, the rest are unstressed; consonants get −1).  An unmatched leading
character is consumed silently. -/
def g2pLoop : Nat → List Char → Bool → List PhonemeToken
  | 0, _, _ => []
  | _ + 1, [], _ => []
  | fuel + 1, remaining@(_ :: rest), vowelSeen =>
    match applyRules remaining with
    | some (r, advance) =>
      let isVow := isVowel r
      let stress : ℤ := if isVow then (if vowelSeen then 0 else 1) else -1
      ⟨r, stress⟩ :: g2pLoop fuel (remaining.drop advance) (vowelSeen || isVow)
    | none => g2pLoop fuel rest vowelSeen

/-- Map one ARPAbet symbol of a dictionary entry to a token, extracting the
trailing stress digit if present (the source's `arpa.match(/([012])$/)`,
defaulting to −1) and stripping digits before the table lookup
(`ARPABET_TO_RHUBARB[base] ?? 'A'`). -/
def arpaToToken (arpa : String) : PhonemeToken :=
  let stress : ℤ := match arpa.toList.getLast? with
    | some c => if c = '0' ∨ c = '1' ∨ c = '2' then (c.toNat : ℤ) - 48 else -1
    | none => -1
  let base := (arpa.toList.filter (fun c => !c.isDigit)).asString
  { r := (ARPABET_TO_RHUBARB.lookup base).getD 'A', stress := stress }

/-- `wordToRhubarb` of `phoneme-cmu.ts` (stress-aware version): clean the
word to lower-case letters, try the dictionary, fall back to the G2P rule
loop, and return the default open-vowel + silence pair when nothing was
produced. -/
def wordToRhubarb (word : String) : List PhonemeToken :=
  let lower := (word.toList.map Char.toLower).filter Char.isLower
  if lower.isEmpty then []
  else
    match WORD_DICT.lookup lower.asString with
    | some dictEntry => dictEntry.map arpaToToken
    | none =>
      let result := g2pLoop 60 lower false
      if result.isEmpty then [⟨'A', 1⟩, ⟨'X', -1⟩] else result

-- ---------------------------------------------------------------------------
-- 2.  Timeline allocator (estimateWithCMU of phoneme-cmu.ts)
-- ---------------------------------------------------------------------------

/-- The apostrophe character (kept by the tokenizer's
`raw.replace(/[^a-zA-Z']/g, '')` cleaning step). -/
def apostrophe : Char := Char.ofNat 39

/-- Full-breath pause after `.` `!` `?` `…` (`SENTENCE_PAUSE`). -/
def SENTENCE_PAUSE : ℚ := 0.22
/-- Brief pause after `,` `;` `:` `—` (`CLAUSE_PAUSE`). -/
def CLAUSE_PAUSE : ℚ := 0.10
/-- Normal inter-word gap (`WORD_PAUSE`). -/
def WORD_PAUSE : ℚ := 0.03

/-- Split a character stream into maximal whitespace-free chunks.  Models the
source's `text.replace(/\s+/g, ' ').trim().split(/\s+/)`: both produce the
whitespace-separated chunks of the text (the one artefact of the JS pipeline,
a single `""` chunk for all-whitespace text, is removed by the
`word.length > 0` filter that follows in the source and never reaches the
token list). -/
def chunksAux : List Char → List Char → List (List Char)
  | [], acc => if acc.isEmpty then [] else [acc.reverse]
  | c :: cs, acc =>
    if c.isWhitespace then
      (if acc.isEmpty then chunksAux cs [] else acc.reverse :: chunksAux cs [])
    else chunksAux cs (c :: acc)

/-- The whitespace-separated raw word chunks of the input text. -/
def splitChunks (text : String) : List (List Char) := chunksAux text.toList []

/-- A raw token `{ word, rawPause }` of the tokenisation step. -/
structure RawToken where
  word : String
  rawPause : ℚ
deriving DecidableEq, Repr

/-- The cleaning step `raw.replace(/[^a-zA-Z']/g, '')`: keep ASCII letters
and apostrophes. -/
def cleanWord (raw : List Char) : String :=
  (raw.filter (fun c => c.isAlpha || c = apostrophe)).asString

/-- Pause weight from the chunk's last character (`raw.slice(-1)`):
sentence-final > clause-final > plain word boundary. -/
def rawPauseOf (raw : List Char) : ℚ :=
  let lastChar := raw.getLastD ' '
  if lastChar ∈ ['.', '!', '?', '…'] then SENTENCE_PAUSE
  else if lastChar ∈ [',', ';', ':', '—'] then CLAUSE_PAUSE
  else WORD_PAUSE

/-- Tokenisation step of `estimateWithCMU`: chunks → `{word, rawPause}`,
dropping tokens whose cleaned word is empty. -/
def rawTokens (text : String) : List RawToken :=
  ((splitChunks text).map (fun raw => RawToken.mk (cleanWord raw) (rawPauseOf raw))).filter
    (fun t => t.word ≠ "")

/-- Leading-silence budget `min(0.02, durationSeconds * 0.03)`. -/
def INITIAL_SILENCE (durationSeconds : ℚ) : ℚ := min 0.02 (durationSeconds * 0.03)

/-- Minimum per-phoneme cue duration (30 ms). -/
def MIN_PHONEME_DUR : ℚ := 0.030

/-- A fully prepared word token: cleaned word, raw and scaled pause, and its
phoneme tokens. -/
structure WordToken where
  word : String
  rawPause : ℚ
  scaledPause : ℚ
  phonemes : List PhonemeToken
deriving DecidableEq, Repr

/-- Stress-and-class weight of one phoneme token
(`STRESS_SCALE[p.stress] * (isVowel(p.r) ? 1.2 : 0.8)`). -/
def tokenWeight (p : PhonemeToken) : ℚ :=
  STRESS_SCALE p.stress * (if isVowel p.r then 1.2 else 0.8)

/-- Allocated duration of one phoneme cue: the stress-and-class weighted
share floored at `MIN_PHONEME_DUR`
(`Math.max(baseTimePerUnit * stressMul * shapeMul, MIN_PHONEME_DUR)`). -/
def phonemeDur (baseTimePerUnit : ℚ) (p : PhonemeToken) : ℚ :=
  max (baseTimePerUnit * STRESS_SCALE p.stress * (if isVowel p.r then 1.2 else 0.8))
    MIN_PHONEME_DUR

/-- Emit the phoneme cues of one word starting at `ct`; returns the advanced
clock and the cues. -/
def emitPhonemes (baseTimePerUnit : ℚ) (ct : ℚ) : List PhonemeToken → ℚ × List MouthCue
  | [] => (ct, [])
  | p :: rest =>
    let dur := phonemeDur baseTimePerUnit p
    ((emitPhonemes baseTimePerUnit (ct + dur) rest).1,
      ⟨ct, ct + dur, p.r⟩ :: (emitPhonemes baseTimePerUnit (ct + dur) rest).2)

/-- Emit all cues of the word-token list: per word its phoneme cues, then a
silence cue for the scaled pause only when it exceeds 10 ms — the clock
advances by the pause either way (the source's
`if (pauseDur > 0.01) mouthCues.push(...); currentTime += pauseDur`). -/
def emitTokens (baseTimePerUnit : ℚ) (ct : ℚ) : List WordToken → ℚ × List MouthCue
  | [] => (ct, [])
  | t :: rest =>
    let afterPh := emitPhonemes baseTimePerUnit ct t.phonemes
    let pauseCues : List MouthCue :=
      if t.scaledPause > 0.01 then [⟨afterPh.1, afterPh.1 + t.scaledPause, 'X'⟩] else []
    ((emitTokens baseTimePerUnit (afterPh.1 + t.scaledPause) rest).1,
      afterPh.2 ++ pauseCues ++ (emitTokens baseTimePerUnit (afterPh.1 + t.scaledPause) rest).2)

/-- Final-cue reconciliation (step 4 of `estimateWithCMU`): extend the last
cue to `durationSeconds` on undershoot; on overshoot beyond 10 ms compress
it (never below 20 ms past its start) and append a trailing silence cue if
the compressed end still falls short of the duration. -/
def reconcile (durationSeconds ct : ℚ) (cues : List MouthCue) : List MouthCue :=
  match cues.getLast? with
  | none => cues
  | some lastCue =>
    if ct < durationSeconds then
      cues.dropLast ++ [{ lastCue with «end» := durationSeconds }]
    else if ct > durationSeconds + 0.01 then
      let overshoot := ct - durationSeconds
      let newEnd := max (lastCue.start + 0.02) (lastCue.«end» - overshoot)
      let adjusted := cues.dropLast ++ [{ lastCue with «end» := newEnd }]
      if newEnd < durationSeconds then adjusted ++ [⟨newEnd, durationSeconds, 'X'⟩]
      else adjusted
    else cues

/-- The speaking-free time span `phaseTime = durationSeconds − INITIAL_SILENCE`. -/
def phaseTime (durationSeconds : ℚ) : ℚ :=
  durationSeconds - INITIAL_SILENCE durationSeconds

/-- The punctuation-pause scale
`PAUSE_BUDGET / Math.max(totalRaw, 0.001)` with
`PAUSE_BUDGET = phaseTime * 0.16`. -/
def pauseScaleOf (text : String) (durationSeconds : ℚ) : ℚ :=
  phaseTime durationSeconds * 0.16 /
    max ((rawTokens text).map (fun t => t.rawPause)).sum 0.001

/-- The prepared word-token list: every raw token with its scaled pause and
its phoneme tokens. -/
def wordTokens (text : String) (durationSeconds : ℚ) : List WordToken :=
  (rawTokens text).map (fun t =>
    WordToken.mk t.word t.rawPause (t.rawPause * pauseScaleOf text durationSeconds)
      (wordToRhubarb t.word))

/-- The stress-weighted phoneme total `totalWeightedPhonemes`. -/
def totalWeightedPhonemes (text : String) (durationSeconds : ℚ) : ℚ :=
  ((wordTokens text durationSeconds).map (fun t => (t.phonemes.map tokenWeight).sum)).sum

/-- `baseTimePerUnit = SPEECH_BUDGET / Math.max(totalWeightedPhonemes, 1)`
with `SPEECH_BUDGET = phaseTime * 0.84`. -/
def baseTimePerUnitOf (text : String) (durationSeconds : ℚ) : ℚ :=
  phaseTime durationSeconds * 0.84 / max (totalWeightedPhonemes text durationSeconds) 1

/-- The time-budget and cue-emission core of `estimateWithCMU` for a
non-empty token list: returns the final clock value `currentTime` and the
un-reconciled cue list. -/
def estimateCore (text : String) (durationSeconds : ℚ) : ℚ × List MouthCue :=
  emitTokens (baseTimePerUnitOf text durationSeconds) (INITIAL_SILENCE durationSeconds)
    (wordTokens text durationSeconds)

/-- `estimateWithCMU` of `phoneme-cmu.ts` (stress-aware version): empty token
list → one silence cue spanning the duration; otherwise emit the cues and
reconcile the final cue against the duration. -/
def estimateWithCMU (text : String) (durationSeconds : ℚ) : List MouthCue :=
  if (rawTokens text).isEmpty then [⟨0, durationSeconds, 'X'⟩]
  else
    reconcile durationSeconds (estimateCore text durationSeconds).1
      (estimateCore text durationSeconds).2

/-- The final value of the emission clock `currentTime` (equal to
`durationSeconds` on the empty-token path, where no clock runs). -/
def estimateFinalTime (text : String) (durationSeconds : ℚ) : ℚ :=
  if (rawTokens text).isEmpty then durationSeconds
  else (estimateCore text durationSeconds).1

-- ---------------------------------------------------------------------------
-- 3.  Refinement arbiter (refinePhonemes of useSpeechRecognition.ts)
-- ---------------------------------------------------------------------------

/-- `AudioManager.estimateDuration`: 16-bit PCM byte count → seconds
(`(pcmData.byteLength / 2) / sampleRate`). -/
def estimateDuration (byteLength : ℕ) (sampleRate : ℚ) : ℚ :=
  ((byteLength : ℚ) / 2) / sampleRate

/-- `cues.length > 0 ? cues[cues.length - 1].end : 0` of `refinePhonemes`. -/
def lastCueEnd (cues : List MouthCue) : ℚ :=
  match cues.getLast? with
  | some c => c.«end»
  | none => 0

/-- The acceptance decision of `refinePhonemes` in `useSpeechRecognition.ts`:
`response = none` models every failure path (fetch rejection, non-ok
response, parse failure — all caught and ignored); on a parsed cue list the
coverage `lastCueEnd / audioDuration` (0 when the duration is not positive)
is tested against 0.7, and the refined cues replace the stored estimate
exactly when `coverage < 0.7` fails. -/
def refinePhonemesDecision (prev : List MouthCue) (response : Option (List MouthCue))
    (audioDuration : ℚ) : List MouthCue :=
  match response with
  | none => prev
  | some cues =>
    let coverage := if audioDuration > 0 then lastCueEnd cues / audioDuration else 0
    if coverage < 0.7 then prev else cues

-- ---------------------------------------------------------------------------
-- 4.  Amplitude envelope extractor (extractAmplitudeEnvelope of
--     audio-manager.ts); over ℝ because of the square root
-- ---------------------------------------------------------------------------

/-- Normalise one 16-bit sample to `[-1, 1]` (`pcm16[i] / 32768.0`). -/
noncomputable def sampleToFloat (s : ℤ) : ℝ := (s : ℝ) / 32768

/-- `samplesPerFrame = Math.ceil(sampleRate / fps)` on naturals. -/
def samplesPerFrameOf (sampleRate fps : ℕ) : ℕ := (sampleRate + fps - 1) / fps

/-- `numFrames = Math.ceil(pcm16.length / samplesPerFrame)` on naturals. -/
def numFramesOf (len spf : ℕ) : ℕ := (len + spf - 1) / spf

/-- RMS of one frame window: `sqrt(sumSq / (end - start))`, the frame being
the sample slice `[start, end)` (all frames produced below are non-empty,
matching the source where `end - start > 0`). -/
noncomputable def frameRMS (frame : List ℤ) : ℝ :=
  Real.sqrt ((frame.map (fun s => sampleToFloat s ^ 2)).sum / frame.length)

/-- The per-frame RMS pass of `extractAmplitudeEnvelope`: frame `f` covers
samples `[f*spf, min(f*spf + spf, len))`. -/
noncomputable def rawEnvelope (pcm : List ℤ) (fps sampleRate : ℕ) : List ℝ :=
  let spf := samplesPerFrameOf sampleRate fps
  (List.range (numFramesOf pcm.length spf)).map
    (fun f => frameRMS ((pcm.drop (f * spf)).take spf))

/-- The peak scan `let peak = 0; if (envelope[i] > peak) peak = envelope[i]`. -/
noncomputable def peakOf (l : List ℝ) : ℝ :=
  l.foldl (fun p x => if x > p then x else p) 0

/-- The peak-normalisation pass: `if (peak > 0) envelope[i] /= peak`. -/
noncomputable def normalizeEnvelope (l : List ℝ) : List ℝ :=
  if peakOf l > 0 then l.map (fun x => x / peakOf l) else l

/-- The in-place 3-tap smoothing loop
`for (i = 1; i < n - 1; i++) env[i] = (env[i-1] + env[i] + env[i+1]) / 3`,
where `env[i-1]` is the already-smoothed value: `prev` carries it, the list
argument holds the not-yet-smoothed values from position `i` on, and the
final element is left untouched. -/
noncomputable def smooth3Aux (prev : ℝ) : List ℝ → List ℝ
  | [] => []
  | [x] => [x]
  | x :: y :: rest =>
    ((prev + x + y) / 3) :: smooth3Aux ((prev + x + y) / 3) (y :: rest)

/-- The 3-tap smoothing pass (first element untouched, see `smooth3Aux`). -/
noncomputable def smooth3 : List ℝ → List ℝ
  | [] => []
  | x :: rest => x :: smooth3Aux x rest

/-- `AudioManager.extractAmplitudeEnvelope`: per-frame RMS, peak
normalisation, then 3-tap smoothing — in that order. -/
noncomputable def extractAmplitudeEnvelope (pcm : List ℤ) (fps sampleRate : ℕ) : List ℝ :=
  smooth3 (normalizeEnvelope (rawEnvelope pcm fps sampleRate))

-- ---------------------------------------------------------------------------
-- 5.  Per-frame playback driver (Avatar useFrame body)
-- ---------------------------------------------------------------------------

/-- Look-ahead blend weight (20 % of the next phoneme). -/
noncomputable def LOOK_AHEAD_WEIGHT : ℝ := 0.20

/-- Silence gate threshold on the sampled amplitude. -/
noncomputable def SILENCE_THRESHOLD : ℝ := 0.07

/-- Soft floor for low-jaw-open (consonant) visemes. -/
noncomputable def CONSONANT_AMP_FLOOR : ℝ := 0.10

/-- One `{ name, weight }` entry of the viseme table. -/
structure VisemeTarget where
  name : String
  weight : ℝ

/-- `VISEME_MAP`: Rhubarb letter → (mouthOpen, mouthSmile) morph weights. -/
noncomputable def VISEME_MAP : List (String × List VisemeTarget) := [
  ("X", []),
  ("A", [⟨"mouthOpen", 1.0⟩, ⟨"mouthSmile", 0.05⟩]),
  ("B", []),
  ("C", [⟨"mouthOpen", 0.65⟩]),
  ("D", [⟨"mouthOpen", 0.35⟩, ⟨"mouthSmile", 0.12⟩]),
  ("E", [⟨"mouthOpen", 0.2⟩]),
  ("F", [⟨"mouthOpen", 0.15⟩, ⟨"mouthSmile", 0.05⟩]),
  ("G", [⟨"mouthOpen", 0.45⟩]),
  ("H", [⟨"mouthOpen", 0.22⟩, ⟨"mouthSmile", 0.48⟩])]

/-- `VISEME_MAP[v] ?? VISEME_MAP["X"]` (the X row is the empty list). -/
noncomputable def visemeTargets (v : String) : List VisemeTarget :=
  (VISEME_MAP.lookup v).getD ((VISEME_MAP.lookup "X").getD [])

/-- The per-frame weight record: the GLB exposes exactly the two morph
targets `ALL_VISEME_TARGETS = ["mouthOpen", "mouthSmile"]`, which the
source resets to 0 each frame, so the string-keyed `weights` record is
modelled by this two-field structure. -/
structure Weights where
  mouthOpen : ℝ
  mouthSmile : ℝ

/-- `weights[name] = x` for the two known morph-target names. -/
def setWeight (w : Weights) (name : String) (x : ℝ) : Weights :=
  if name = "mouthOpen" then { w with mouthOpen := x }
  else if name = "mouthSmile" then { w with mouthSmile := x }
  else w

/-- `weights[name] ?? 0` for the two known morph-target names. -/
def getWeight (w : Weights) (name : String) : ℝ :=
  if name = "mouthOpen" then w.mouthOpen
  else if name = "mouthSmile" then w.mouthSmile
  else 0

/-- The primary pass: zero-initialised weights overwritten by the current
viseme's targets (`primary.forEach(({name, weight}) => weights[name] = weight)`). -/
noncomputable def baseWeights (cv : String) : Weights :=
  (visemeTargets cv).foldl (fun w t => setWeight w t.name t.weight) ⟨0, 0⟩

/-- The look-ahead pass: when a different, non-empty next viseme is queued,
add 20 % of its weights, clamped at 1
(`weights[name] = Math.min(1, (weights[name] ?? 0) + weight * LOOK_AHEAD_WEIGHT)`). -/
noncomputable def lookAheadWeights (cv nv : String) : Weights :=
  let w := baseWeights cv
  if nv ≠ "" ∧ nv ≠ cv then
    (visemeTargets nv).foldl
      (fun w t => setWeight w t.name (min 1 (getWeight w t.name + t.weight * LOOK_AHEAD_WEIGHT)))
      w
  else w

/-- The amplitude gate curve: 0 below the silence threshold, otherwise
`pow((amp - SILENCE_THRESHOLD) / (1.0 - SILENCE_THRESHOLD), 0.65)`. -/
noncomputable def amplitudeGate (amp : ℝ) : ℝ :=
  if amp < SILENCE_THRESHOLD then 0
  else Real.rpow ((amp - SILENCE_THRESHOLD) / (1.0 - SILENCE_THRESHOLD)) 0.65

/-- The amplitude-gating step on `mouthOpen` (only applied `if (isPlaying)` and
`if (rawOpen > 0)`): multiply by the gate, but no lower than the consonant
floor `0.10` when the raw jaw-open value is below `0.25`.  `mouthSmile` is
never touched. -/
noncomputable def gateStep (isPlaying : Bool) (amp : ℝ) (w : Weights) : Weights :=
  if isPlaying then
    let gate := amplitudeGate amp
    let rawOpen := w.mouthOpen
    if rawOpen > 0 then
      let floor := if rawOpen < 0.25 then CONSONANT_AMP_FLOOR else 0
      { w with mouthOpen := rawOpen * max gate floor }
    else w
  else w

/-- The complete per-frame target-weight computation of the `useFrame` body:
primary viseme weights, look-ahead blend, amplitude gate. -/
noncomputable def computeTargets (cv nv : String) (isPlaying : Bool) (amp : ℝ) : Weights :=
  gateStep isPlaying amp (lookAheadWeights cv nv)

/-- `THREE.MathUtils.lerp(x, y, t) = x + (y - x) * t`. -/
noncomputable def lerp (a b t : ℝ) : ℝ := a + (b - a) * t

/-- One smoothing step of a morph-target influence: asymmetric rate (attack
120/s when the target is above the current value, decay 22/s otherwise) fed
through the frame-rate-independent exponential lerp
`lerp(current, target, 1 - exp(-rate * delta))`. -/
noncomputable def stepInfluence (current target delta : ℝ) : ℝ :=
  let rate : ℝ := if target > current then 120 else 22
  lerp current target (1 - Real.exp (-rate * delta))

-- ---------------------------------------------------------------------------
-- 6.  Verification support
-- ---------------------------------------------------------------------------

/-- `Spans t0 cs t1`: the cues of `cs` lie inside `[t0, t1]`, are sorted and
non-overlapping, and each has positive length. -/
def Spans (t0 : ℚ) (cs : List MouthCue) (t1 : ℚ) : Prop :=
  t0 ≤ t1 ∧ List.Chain' (fun a b => a.«end» ≤ b.start) cs ∧
    ∀ c ∈ cs, c.start < c.«end» ∧ t0 ≤ c.start ∧ c.«end» ≤ t1

-- ---------------------------------------------------------------------------
-- 7.  Theorems
-- ---------------------------------------------------------------------------

theorem lookup_mem {α β : Type} [BEq α] [LawfulBEq α] {l : List (α × β)} {k : α} {b : β}
    (h : l.lookup k = some b) : b ∈ l.map Prod.snd := by
  obtain ⟨l₁, l₂, rfl, -⟩ := List.lookup_eq_some_iff.mp h
  simp

set_option maxRecDepth 4000 in
theorem dict_entries_nonempty : ∀ p ∈ WORD_DICT, p.2 ≠ [] := by decide

/-- Claim C7: for every word whose cleaned form (lower-cased letters only) is
non-empty, `wordToRhubarb` returns a non-empty token sequence; and when
neither the dictionary nor the G2P loop produces a token it returns the
default open-vowel + silence pair `A, X`.  (Totality is immediate: the
function is a Lean `def`, and the source's `safety` counter is the explicit
fuel of `g2pLoop`.) -/
theorem c7_estimator_total (word : String)
    (h : (word.toList.map Char.toLower).filter Char.isLower ≠ []) :
    wordToRhubarb word ≠ [] ∧
      (WORD_DICT.lookup ((word.toList.map Char.toLower).filter Char.isLower).asString = none →
        g2pLoop 60 ((word.toList.map Char.toLower).filter Char.isLower) false = [] →
        wordToRhubarb word = [⟨'A', 1⟩, ⟨'X', -1⟩]) := by
  constructor
  · cases hlk : WORD_DICT.lookup ((word.toList.map Char.toLower).filter Char.isLower).asString with
    | none =>
      simp only [wordToRhubarb, String.toList] at *
      rw [hlk]
      simp only [List.isEmpty_iff, h, if_false]
      split
      · next hres => simp
      · next hres => simpa using hres
    | some entry =>
      have hmem := lookup_mem hlk
      have hne : entry ≠ [] := by
        have hall := dict_entries_nonempty
        simp only [List.mem_map] at hmem
        obtain ⟨p, hp, rfl⟩ := hmem
        exact hall p hp
      simp only [wordToRhubarb, String.toList] at *
      rw [hlk]
      simp only [List.isEmpty_iff, h, if_false]
      simpa using hne
  · intro hlk hloop
    simp only [wordToRhubarb, String.toList] at *
    rw [hlk]
    simp only [List.isEmpty_iff, h, if_false, hloop]
    simp

theorem c7_witness :
    ("c".toList.map Char.toLower).filter Char.isLower ≠ [] ∧ wordToRhubarb "c" ≠ [] :=
  ⟨by decide, (c7_estimator_total "c" (by decide)).1⟩

/-- Claim C4 (code bug): on input "hello" the estimator takes the dictionary
path (`WORD_DICT` maps "hello" to HH, AH, L, OW), but — because the stored
entries are stress-stripped while the stress-extraction regex expects a
trailing 0/1/2 digit — every resulting token gets stress −1 (NotApplicable):
the sequence contains no Primary-stressed vowel at all, contradicting the
documented behaviour that dictionary stress markers drive vowel duration. -/
theorem c4_bug :
    WORD_DICT.lookup "hello" = some ["HH", "AH", "L", "OW"] ∧
    wordToRhubarb "hello" = [⟨'H', -1⟩, ⟨'A', -1⟩, ⟨'C', -1⟩, ⟨'C', -1⟩] ∧
    ((wordToRhubarb "hello").filter (fun p => p.stress = 1)).length = 0 ∧
    ∀ p ∈ wordToRhubarb "hello", p.stress = -1 := by
  refine ⟨by decide, by decide, by decide, by decide⟩

/-- Claim C5 (amended): for two tokens of the same viseme class in the same
allocation run (same `baseTimePerUnit`), one Primary (stress 1, multiplier
1.45) and one Unstressed (stress 0, multiplier 0.65), the Primary token's
allocated duration is at least the Unstressed one's, and strictly greater
exactly when the Primary's weighted share exceeds the 30 ms minimum floor;
when both shares fall at or below the floor the two cues are clamped to
equal 30 ms durations. -/
theorem c5_amended (b : ℚ) (r : Char) (hb : 0 < b) :
    phonemeDur b ⟨r, 0⟩ ≤ phonemeDur b ⟨r, 1⟩ ∧
      (MIN_PHONEME_DUR < b * STRESS_SCALE 1 * (if isVowel r then 1.2 else 0.8) →
        phonemeDur b ⟨r, 0⟩ < phonemeDur b ⟨r, 1⟩) ∧
      (b * STRESS_SCALE 1 * (if isVowel r then 1.2 else 0.8) ≤ MIN_PHONEME_DUR →
        phonemeDur b ⟨r, 0⟩ = phonemeDur b ⟨r, 1⟩) := by
  have hm : (0 : ℚ) < (if isVowel r then (1.2 : ℚ) else 0.8) := by split <;> norm_num
  have hscale : STRESS_SCALE 0 = 0.65 ∧ STRESS_SCALE 1 = 1.45 := by
    constructor <;> simp [STRESS_SCALE]
  have hlt : b * STRESS_SCALE 0 * (if isVowel r then (1.2 : ℚ) else 0.8) <
      b * STRESS_SCALE 1 * (if isVowel r then (1.2 : ℚ) else 0.8) := by
    rw [hscale.1, hscale.2]
    have : (0.65 : ℚ) < 1.45 := by norm_num
    nlinarith
  refine ⟨?_, ?_, ?_⟩
  · exact max_le_max (le_of_lt hlt) le_rfl
  · intro hgt
    calc phonemeDur b ⟨r, 0⟩ ≤ max (b * STRESS_SCALE 0 * (if isVowel r then 1.2 else 0.8))
          MIN_PHONEME_DUR := le_of_eq rfl
      _ < b * STRESS_SCALE 1 * (if isVowel r then 1.2 else 0.8) :=
          max_lt hlt (by exact hgt)
      _ ≤ phonemeDur b ⟨r, 1⟩ := le_max_left _ _
  · intro hle
    have h0 : b * STRESS_SCALE 0 * (if isVowel r then (1.2 : ℚ) else 0.8) ≤ MIN_PHONEME_DUR :=
      le_trans (le_of_lt hlt) hle
    unfold phonemeDur
    rw [max_eq_right h0, max_eq_right hle]

theorem c5_witness :
    (0 : ℚ) < 1 ∧ phonemeDur 1 ⟨'A', 0⟩ ≤ phonemeDur 1 ⟨'A', 1⟩ :=
  ⟨by norm_num, (c5_amended 1 'A' (by norm_num)).1⟩

/-- Claim C2: the refinement gate replaces the stored estimate with the
external cue list exactly when coverage (last cue end over audio duration)
reaches 0.7 — coverage exactly 0.7 accepts, anything below rejects; every
failure path and every rejection leaves the stored estimate unchanged, and
the outcome is always one of the two whole lists, never a merge. -/
theorem c2_refinement_gate (prev cues : List MouthCue) (dur : ℚ) (hdur : 0 < dur) :
    (0.7 ≤ lastCueEnd cues / dur → refinePhonemesDecision prev (some cues) dur = cues) ∧
    (lastCueEnd cues / dur < 0.7 → refinePhonemesDecision prev (some cues) dur = prev) ∧
    (lastCueEnd cues = 0.7 * dur → refinePhonemesDecision prev (some cues) dur = cues) ∧
    (refinePhonemesDecision prev none dur = prev) ∧
    (refinePhonemesDecision prev (some cues) dur = prev ∨
      refinePhonemesDecision prev (some cues) dur = cues) := by
  have hcov : refinePhonemesDecision prev (some cues) dur =
      if lastCueEnd cues / dur < 0.7 then prev else cues := by
    rw [refinePhonemesDecision]
    simp only [if_pos hdur]
  refine ⟨?_, ?_, ?_, by rw [refinePhonemesDecision], ?_⟩
  · intro h
    rw [hcov, if_neg (not_lt.mpr h)]
  · intro h
    rw [hcov, if_pos h]
  · intro h
    have : lastCueEnd cues / dur = 0.7 := by
      rw [h]
      field_simp
    rw [hcov, this]
    norm_num
  · rw [hcov]
    split
    · exact Or.inl rfl
    · exact Or.inr rfl

theorem c2_witness :
    (0 : ℚ) < 1 ∧
      lastCueEnd [⟨0, 7/10, 'A'⟩] = 0.7 * 1 ∧
      refinePhonemesDecision [⟨0, 1, 'X'⟩] (some [⟨0, 7/10, 'A'⟩]) 1 = [⟨0, 7/10, 'A'⟩] := by
  have h1 : (0 : ℚ) < 1 := by norm_num
  have h2 : lastCueEnd [(⟨0, 7/10, 'A'⟩ : MouthCue)] = 0.7 * 1 := by
    simp [lastCueEnd, List.getLast?]
    norm_num
  exact ⟨h1, h2, ((c2_refinement_gate [⟨0, 1, 'X'⟩] [⟨0, 7/10, 'A'⟩] 1 h1).2.2.1 h2)⟩

/-- Claim C5 (counterexample): in the allocation run for text "vavav" with
duration 0.05 s, the Primary-stressed 'A' token (second cue) and the
Unstressed 'A' token (fourth cue) — same viseme class, same run — both
receive exactly the 30 ms floor, so the Primary cue's duration is not
strictly greater. -/
theorem c5_counterexample :
    estimateWithCMU "vavav" (1/20) =
      [⟨3/2000, 63/2000, 'F'⟩, ⟨63/2000, 123/2000, 'A'⟩, ⟨123/2000, 183/2000, 'F'⟩,
       ⟨183/2000, 243/2000, 'A'⟩, ⟨243/2000, 283/2000, 'F'⟩] ∧
    wordToRhubarb "vavav" = [⟨'F', -1⟩, ⟨'A', 1⟩, ⟨'F', -1⟩, ⟨'A', 0⟩, ⟨'F', -1⟩] ∧
    (123/2000 - 63/2000 : ℚ) = 243/2000 - 183/2000 := by
  have h2 : wordToRhubarb "vavav" =
      [⟨'F', -1⟩, ⟨'A', 1⟩, ⟨'F', -1⟩, ⟨'A', 0⟩, ⟨'F', -1⟩] := by decide
  refine ⟨?_, h2, by norm_num⟩
  have h1 : rawTokens "vavav" = [⟨"vavav", WORD_PAUSE⟩] := rfl
  have hps : pauseScaleOf "vavav" (1/20) = 97/375 := by
    rw [pauseScaleOf, h1]; simp [phaseTime, INITIAL_SILENCE, WORD_PAUSE]; norm_num
  have hwt : wordTokens "vavav" (1/20) =
      [⟨"vavav", 3/100, 97/12500,
        [⟨'F', -1⟩, ⟨'A', 1⟩, ⟨'F', -1⟩, ⟨'A', 0⟩, ⟨'F', -1⟩]⟩] := by
    rw [wordTokens, h1]
    simp only [List.map_cons, List.map_nil]
    rw [hps, h2]
    norm_num [WORD_PAUSE]
  have htw : totalWeightedPhonemes "vavav" (1/20) = 123/25 := by
    rw [totalWeightedPhonemes, hwt]; simp [tokenWeight, STRESS_SCALE, isVowel]; norm_num
  have hbase : baseTimePerUnitOf "vavav" (1/20) = 679/82000 := by
    rw [baseTimePerUnitOf, htw]; simp [phaseTime, INITIAL_SILENCE]; norm_num
  have hdF : phonemeDur (679/82000) ⟨'F', -1⟩ = 3/100 := by
    simp [phonemeDur, STRESS_SCALE, isVowel, MIN_PHONEME_DUR]; norm_num
  have hdA1 : phonemeDur (679/82000) ⟨'A', 1⟩ = 3/100 := by
    simp [phonemeDur, STRESS_SCALE, isVowel, MIN_PHONEME_DUR]; norm_num
  have hdA0 : phonemeDur (679/82000) ⟨'A', 0⟩ = 3/100 := by
    simp [phonemeDur, STRESS_SCALE, isVowel, MIN_PHONEME_DUR]; norm_num
  have hcore : estimateCore "vavav" (1/20) =
      (7963/50000,
       [⟨3/2000, 63/2000, 'F'⟩, ⟨63/2000, 123/2000, 'A'⟩, ⟨123/2000, 183/2000, 'F'⟩,
        ⟨183/2000, 243/2000, 'A'⟩, ⟨243/2000, 303/2000, 'F'⟩]) := by
    rw [estimateCore, hbase, hwt]
    simp [emitTokens, emitPhonemes, hdF, hdA1, hdA0, INITIAL_SILENCE]
    norm_num
  have hne : (rawTokens "vavav").isEmpty = false := rfl
  rw [estimateWithCMU, hne, hcore]
  simp [reconcile, List.getLast?]
  norm_num [List.dropLast]

/-- Claim C8 (amended): when every whitespace-separated chunk of the input
cleans to the empty word (no ASCII letters and no apostrophes — in
particular the empty string, whitespace-only input and apostrophe-free
punctuation), the estimator returns exactly one silence cue `{0, D, X}` for
any duration `D`, and this case is handled locally, not as an error.
Apostrophe-only chunks survive the tokenizer (the cleaning regex keeps `'`),
take the word path instead, and shift the single cue's start to the
leading-silence offset. -/
theorem c8_amended (text : String) (D : ℚ) (h : rawTokens text = []) :
    estimateWithCMU text D = [⟨0, D, 'X'⟩] := by
  rw [estimateWithCMU, h]
  simp

theorem c8_witness :
    rawTokens ". !" = [] ∧ estimateWithCMU ". !" (1/2) = [⟨0, 1/2, 'X'⟩] :=
  ⟨by decide, c8_amended ". !" (1/2) (by decide)⟩

/-- Claim C8 (counterexample): the apostrophe-only input (punctuation only)
with duration 0.5 s yields a single silence cue starting at the 15 ms
leading-silence offset, not at 0, because the cleaning step
`raw.replace(/[^a-zA-Z']/g, '')` keeps the apostrophe and the token enters
the word path. -/
theorem c8_counterexample :
    estimateWithCMU (String.mk [apostrophe]) (1/2) = [⟨3/200, 1/2, 'X'⟩] ∧
    estimateWithCMU (String.mk [apostrophe]) (1/2) ≠ [⟨0, 1/2, 'X'⟩] ∧
    (3/200 : ℚ) ≠ 0 := by
  have h1 : rawTokens (String.mk [apostrophe]) =
      [⟨String.mk [apostrophe], WORD_PAUSE⟩] := rfl
  have h2 : wordToRhubarb (String.mk [apostrophe]) = [] := by decide
  have hps : pauseScaleOf (String.mk [apostrophe]) (1/2) = 194/75 := by
    rw [pauseScaleOf, h1]; simp [phaseTime, INITIAL_SILENCE, WORD_PAUSE]; norm_num
  have hwt : wordTokens (String.mk [apostrophe]) (1/2) =
      [⟨String.mk [apostrophe], 3/100, 97/1250, []⟩] := by
    rw [wordTokens, h1]
    simp only [List.map_cons, List.map_nil]
    rw [hps, h2]
    norm_num [WORD_PAUSE]
  have htw : totalWeightedPhonemes (String.mk [apostrophe]) (1/2) = 0 := by
    rw [totalWeightedPhonemes, hwt]; simp
  have hbase : baseTimePerUnitOf (String.mk [apostrophe]) (1/2) = 2037/5000 := by
    rw [baseTimePerUnitOf, htw]; simp [phaseTime, INITIAL_SILENCE]; norm_num
  have hcore : estimateCore (String.mk [apostrophe]) (1/2) =
      (463/5000, [⟨3/200, 463/5000, 'X'⟩]) := by
    rw [estimateCore, hbase, hwt]
    simp [emitTokens, emitPhonemes, INITIAL_SILENCE]
    norm_num
  have hne : (rawTokens (String.mk [apostrophe])).isEmpty = false := rfl
  have hval : estimateWithCMU (String.mk [apostrophe]) (1/2) = [⟨3/200, 1/2, 'X'⟩] := by
    rw [estimateWithCMU, hne, hcore]
    simp [reconcile, List.getLast?]
    norm_num
  refine ⟨hval, ?_, by norm_num⟩
  rw [hval]
  intro hcontra
  have := List.head_eq_of_cons_eq hcontra
  have hstart : (3/200 : ℚ) = 0 := congrArg MouthCue.start this
  norm_num at hstart

theorem spans_nil {t0 t1 : ℚ} (h : t0 ≤ t1) : Spans t0 [] t1 :=
  ⟨h, List.chain'_nil, by simp⟩

theorem spans_singleton {t0 t1 : ℚ} {c : MouthCue} (h1 : t0 ≤ c.start)
    (h2 : c.start < c.«end») (h3 : c.«end» ≤ t1) : Spans t0 [c] t1 :=
  ⟨le_trans h1 (le_trans (le_of_lt h2) h3), List.chain'_singleton c, by
    intro d hd
    rw [List.mem_singleton] at hd
    subst hd
    exact ⟨h2, h1, h3⟩⟩

theorem spans_append {t0 t1 t2 : ℚ} {cs ds : List MouthCue}
    (hcs : Spans t0 cs t1) (hds : Spans t1 ds t2) : Spans t0 (cs ++ ds) t2 := by
  obtain ⟨hle1, hch1, hm1⟩ := hcs
  obtain ⟨hle2, hch2, hm2⟩ := hds
  refine ⟨le_trans hle1 hle2, ?_, ?_⟩
  · rw [List.chain'_append]
    refine ⟨hch1, hch2, ?_⟩
    intro x hx y hy
    have hxm : x ∈ cs := List.mem_of_getLast?_eq_some hx
    have hym : y ∈ ds := List.mem_of_mem_head? hy
    exact le_trans (hm1 x hxm).2.2 (hm2 y hym).2.1
  · intro c hc
    rcases List.mem_append.mp hc with h | h
    · obtain ⟨ha, hb, hc'⟩ := hm1 c h
      exact ⟨ha, hb, le_trans hc' hle2⟩
    · obtain ⟨ha, hb, hc'⟩ := hm2 c h
      exact ⟨ha, le_trans hle1 hb, hc'⟩

theorem phonemeDur_pos (b : ℚ) (p : PhonemeToken) : 0 < phonemeDur b p :=
  lt_of_lt_of_le (show (0 : ℚ) < MIN_PHONEME_DUR by norm_num [MIN_PHONEME_DUR])
    (le_max_right _ _)

theorem emitPhonemes_spans (b : ℚ) :
    ∀ (ps : List PhonemeToken) (ct : ℚ),
      Spans ct (emitPhonemes b ct ps).2 (emitPhonemes b ct ps).1 := by
  intro ps
  induction ps with
  | nil => intro ct; exact spans_nil le_rfl
  | cons p rest ih =>
    intro ct
    have hdur := phonemeDur_pos b p
    have hone : Spans ct [⟨ct, ct + phonemeDur b p, p.r⟩] (ct + phonemeDur b p) :=
      spans_singleton le_rfl (by simpa using hdur) le_rfl
    have := spans_append hone (ih (ct + phonemeDur b p))
    simpa [emitPhonemes] using this

theorem emitTokens_spans (b : ℚ) :
    ∀ (toks : List WordToken) (ct : ℚ), (∀ t ∈ toks, 0 ≤ t.scaledPause) →
      Spans ct (emitTokens b ct toks).2 (emitTokens b ct toks).1 := by
  intro toks
  induction toks with
  | nil => intro ct _; exact spans_nil le_rfl
  | cons t rest ih =>
    intro ct hp
    have hsp : 0 ≤ t.scaledPause := hp t (List.mem_cons_self t rest)
    have h1 := emitPhonemes_spans b t.phonemes ct
    have h2 : Spans (emitPhonemes b ct t.phonemes).1
        (if t.scaledPause > 0.01 then
          [⟨(emitPhonemes b ct t.phonemes).1,
            (emitPhonemes b ct t.phonemes).1 + t.scaledPause, 'X'⟩]
         else [])
        ((emitPhonemes b ct t.phonemes).1 + t.scaledPause) := by
      split
      · next hgt =>
        refine spans_singleton le_rfl ?_ le_rfl
        have : (0.01 : ℚ) < t.scaledPause := hgt
        simp only []
        linarith
      · exact spans_nil (by linarith)
    have h3 := ih ((emitPhonemes b ct t.phonemes).1 + t.scaledPause)
      (fun u hu => hp u (List.mem_cons_of_mem t hu))
    have := spans_append (spans_append h1 h2) h3
    simpa [emitTokens] using this

theorem rawPauseOf_pos (raw : List Char) : 0 < rawPauseOf raw := by
  rw [rawPauseOf]
  split_ifs <;> norm_num [SENTENCE_PAUSE, CLAUSE_PAUSE, WORD_PAUSE]

theorem rawTokens_pause_pos {text : String} : ∀ t ∈ rawTokens text, 0 < t.rawPause := by
  intro t ht
  rw [rawTokens] at ht
  simp only [List.mem_filter, List.mem_map] at ht
  obtain ⟨⟨raw, _, rfl⟩, _⟩ := ht
  exact rawPauseOf_pos raw

theorem INITIAL_SILENCE_nonneg {D : ℚ} (hD : 0 < D) : 0 ≤ INITIAL_SILENCE D := by
  rw [INITIAL_SILENCE]
  have h1 : (0 : ℚ) ≤ 0.02 := by norm_num
  have h2 : (0 : ℚ) ≤ D * 0.03 := by positivity
  exact le_min h1 h2

theorem phaseTime_pos {D : ℚ} (hD : 0 < D) : 0 < phaseTime D := by
  rw [phaseTime, INITIAL_SILENCE]
  rcases min_cases (0.02 : ℚ) (D * 0.03) with ⟨hmin, hle⟩ | ⟨hmin, hle⟩ <;> rw [hmin] <;>
    nlinarith

theorem pauseScaleOf_nonneg {text : String} {D : ℚ} (hD : 0 < D) :
    0 ≤ pauseScaleOf text D := by
  rw [pauseScaleOf]
  have h1 : (0 : ℚ) < phaseTime D * 0.16 := by
    have := phaseTime_pos hD
    nlinarith
  have h2 : (0 : ℚ) < max ((rawTokens text).map (fun t => t.rawPause)).sum 0.001 :=
    lt_of_lt_of_le (by norm_num) (le_max_right _ _)
  positivity

theorem wordTokens_pause_nonneg {text : String} {D : ℚ} (hD : 0 < D) :
    ∀ t ∈ wordTokens text D, 0 ≤ t.scaledPause := by
  intro t ht
  rw [wordTokens] at ht
  simp only [List.mem_map] at ht
  obtain ⟨u, hu, rfl⟩ := ht
  simp only []
  exact mul_nonneg (le_of_lt (rawTokens_pause_pos u hu)) (pauseScaleOf_nonneg hD)

theorem reconcile_props {t0 ct D : ℚ} {cues : List MouthCue}
    (hsp : Spans t0 cues ct) (h0 : 0 ≤ t0) (hD : 0 < D) :
    List.Chain' (fun a b => a.«end» ≤ b.start) (reconcile D ct cues) ∧
    (∀ c ∈ reconcile D ct cues, c.start < c.«end» ∧ 0 ≤ c.start) ∧
    (ct < D → ∀ c, (reconcile D ct cues).getLast? = some c → c.«end» = D) := by
  obtain ⟨hle, hch, hmall⟩ := hsp
  cases hlast : cues.getLast? with
  | none =>
    have hnil : cues = [] := List.getLast?_eq_none_iff.mp hlast
    subst hnil
    rw [reconcile]
    simp
  | some lastC =>
    have hne : cues ≠ [] := by rintro rfl; simp at hlast
    have heq : lastC = cues.getLast hne := by
      have := List.getLast?_eq_getLast cues hne
      rw [hlast] at this
      exact Option.some.inj this
    have hdecomp : cues.dropLast ++ [lastC] = cues := by
      rw [heq]; exact List.dropLast_append_getLast hne
    have hmemlast : lastC ∈ cues := List.mem_of_getLast?_eq_some hlast
    obtain ⟨hpos, hlb, hub⟩ := hmall lastC hmemlast
    have hchsplit := hch
    rw [← hdecomp] at hchsplit
    obtain ⟨hchDrop, -, hlink⟩ := List.chain'_append.mp hchsplit
    -- generic facts for the modified-last-cue list
    have hchainMod : ∀ e : ℚ, List.Chain' (fun a b => a.«end» ≤ b.start)
        (cues.dropLast ++ [{ lastC with «end» := e }]) := by
      intro e
      rw [List.chain'_append]
      refine ⟨hchDrop, List.chain'_singleton _, ?_⟩
      intro x hx y hy
      simp only [List.head?_cons, Option.mem_def, Option.some.injEq] at hy
      subst hy
      exact hlink x hx lastC (by simp)
    have hmemMod : ∀ e : ℚ, lastC.start < e →
        ∀ c ∈ cues.dropLast ++ [{ lastC with «end» := e }],
          c.start < c.«end» ∧ 0 ≤ c.start := by
      intro e he c hc
      rcases List.mem_append.mp hc with h | h
      · obtain ⟨ha, hb, -⟩ := hmall c (List.mem_of_mem_dropLast h)
        exact ⟨ha, le_trans h0 hb⟩
      · rw [List.mem_singleton] at h
        subst h
        exact ⟨he, le_trans h0 hlb⟩
    rw [reconcile, hlast]
    dsimp only
    split_ifs with h1 h2 h3
    · -- undershoot: extend last cue to D
      refine ⟨hchainMod D, hmemMod D (by linarith), ?_⟩
      intro hlt c hc
      rw [List.getLast?_concat] at hc
      cases Option.some.inj hc
      rfl
    · -- overshoot with trailing silence cue
      refine ⟨?_, ?_, ?_⟩
      · rw [List.chain'_append]
        refine ⟨hchainMod _, List.chain'_singleton _, ?_⟩
        intro x hx y hy
        simp only [List.head?_cons, Option.mem_def, Option.some.injEq] at hy
        subst hy
        rw [List.getLast?_concat] at hx
        simp only [Option.mem_def, Option.some.injEq] at hx
        subst hx
        exact le_rfl
      · intro c hc
        rcases List.mem_append.mp hc with h | h
        · refine hmemMod _ ?_ c h
          calc lastC.start < lastC.start + 0.02 := by linarith
            _ ≤ max (lastC.start + 0.02) (lastC.«end» - (ct - D)) := le_max_left _ _
        · rw [List.mem_singleton] at h
          subst h
          refine ⟨h3, ?_⟩
          simp only []
          have : lastC.start < max (lastC.start + 0.02) (lastC.«end» - (ct - D)) :=
            lt_of_lt_of_le (by linarith) (le_max_left _ _)
          linarith [le_trans h0 hlb]
      · intro hlt
        exact absurd (by linarith : ct < ct) (lt_irrefl ct)
    · -- overshoot, compressed end still at or above D
      refine ⟨hchainMod _, ?_, ?_⟩
      · refine hmemMod _ ?_
        calc lastC.start < lastC.start + 0.02 := by linarith
          _ ≤ max (lastC.start + 0.02) (lastC.«end» - (ct - D)) := le_max_left _ _
      · intro hlt
        exact absurd (by linarith : ct < ct) (lt_irrefl ct)
    · -- within tolerance: unchanged
      refine ⟨hch, ?_, ?_⟩
      · intro c hc
        obtain ⟨ha, hb, -⟩ := hmall c hc
        exact ⟨ha, le_trans h0 hb⟩
      · intro hlt
        exact absurd hlt h1

/-- Claim C1 (amended): for every input text and every duration `D > 0`, the
produced timeline is sorted and non-overlapping (each cue ends no later than
the next one starts) with every cue of positive length starting at a
non-negative time; the last cue's end equals `D` whenever the emission clock
falls short of `D` (the undershoot reconciliation).  The original gap-free
and unconditional end-exactness guarantees do not hold: a sub-perceptual
(≤ 10 ms) inter-word pause advances the clock without emitting a cue,
leaving a gap, and an overshoot beyond `D + 0.01` can leave the final end
past `D` because the compressed last cue keeps at least 20 ms. -/
theorem c1_amended (text : String) (D : ℚ) (hD : 0 < D) :
    List.Chain' (fun a b => a.«end» ≤ b.start) (estimateWithCMU text D) ∧
    (∀ c ∈ estimateWithCMU text D, c.start < c.«end» ∧ 0 ≤ c.start) ∧
    (estimateFinalTime text D < D →
      ∀ c, (estimateWithCMU text D).getLast? = some c → c.«end» = D) := by
  by_cases hemp : (rawTokens text).isEmpty
  · rw [estimateWithCMU, if_pos hemp, estimateFinalTime, if_pos hemp]
    refine ⟨by simp, ?_, ?_⟩
    · intro c hc
      rw [List.mem_singleton] at hc
      subst hc
      exact ⟨hD, le_rfl⟩
    · intro hlt
      exact absurd hlt (lt_irrefl D)
  · rw [estimateWithCMU, if_neg hemp, estimateFinalTime, if_neg hemp]
    have hspan : Spans (INITIAL_SILENCE D) (estimateCore text D).2 (estimateCore text D).1 := by
      rw [estimateCore]
      exact emitTokens_spans _ _ _ (wordTokens_pause_nonneg hD)
    exact reconcile_props hspan (INITIAL_SILENCE_nonneg hD) hD

theorem c1_witness :
    (0 : ℚ) < 1 ∧
      List.Chain' (fun a b => a.«end» ≤ b.start) (estimateWithCMU "Hello" 1) :=
  ⟨by norm_num, (c1_amended "Hello" 1 (by norm_num)).1⟩

/-- Claim C1 (counterexample): for text "bb bb" with duration 0.05 s the
produced timeline has a gap — the second cue ends at 123/2000 = 0.0615 s but
the third starts at 3269/50000 = 0.06538 s (an 0.00388 s skipped pause) —
and the last cue ends at 5769/50000 = 0.11538 s, not at the 0.05 s duration,
so the timeline is neither gap-free nor end-exact. -/
theorem c1_counterexample :
    estimateWithCMU "bb bb" (1/20) =
      [⟨3/2000, 63/2000, 'B'⟩, ⟨63/2000, 123/2000, 'B'⟩,
       ⟨3269/50000, 4769/50000, 'B'⟩, ⟨4769/50000, 5769/50000, 'B'⟩] ∧
    (123/2000 : ℚ) ≠ 3269/50000 ∧
    (5769/50000 : ℚ) ≠ 1/20 := by
  refine ⟨?_, by norm_num, by norm_num⟩
  have h1 : rawTokens "bb bb" = [⟨"bb", WORD_PAUSE⟩, ⟨"bb", WORD_PAUSE⟩] := rfl
  have h2 : wordToRhubarb "bb" = [⟨'B', -1⟩, ⟨'B', -1⟩] := by decide
  have hps : pauseScaleOf "bb bb" (1/20) = 97/750 := by
    rw [pauseScaleOf, h1]; simp [phaseTime, INITIAL_SILENCE, WORD_PAUSE]; norm_num
  have hwt : wordTokens "bb bb" (1/20) =
      [⟨"bb", 3/100, 97/25000, [⟨'B', -1⟩, ⟨'B', -1⟩]⟩,
       ⟨"bb", 3/100, 97/25000, [⟨'B', -1⟩, ⟨'B', -1⟩]⟩] := by
    rw [wordTokens, h1]
    simp only [List.map_cons, List.map_nil]
    rw [hps, h2]
    norm_num [WORD_PAUSE]
  have htw : totalWeightedPhonemes "bb bb" (1/20) = 16/5 := by
    rw [totalWeightedPhonemes, hwt]; simp [tokenWeight, STRESS_SCALE, isVowel]; norm_num
  have hbase : baseTimePerUnitOf "bb bb" (1/20) = 2037/160000 := by
    rw [baseTimePerUnitOf, htw]; simp [phaseTime, INITIAL_SILENCE]; norm_num
  have hd : phonemeDur (2037/160000) ⟨'B', -1⟩ = 3/100 := by
    simp [phonemeDur, STRESS_SCALE, isVowel, MIN_PHONEME_DUR]; norm_num
  have hcore : estimateCore "bb bb" (1/20) =
      (6463/50000,
       [⟨3/2000, 63/2000, 'B'⟩, ⟨63/2000, 123/2000, 'B'⟩,
        ⟨3269/50000, 4769/50000, 'B'⟩, ⟨4769/50000, 6269/50000, 'B'⟩]) := by
    rw [estimateCore, hbase, hwt]
    simp [emitTokens, emitPhonemes, hd, INITIAL_SILENCE]
    norm_num
  have hne : (rawTokens "bb bb").isEmpty = false := rfl
  rw [estimateWithCMU, hne, hcore]
  simp [reconcile, List.getLast?]
  norm_num [List.dropLast]

theorem arpabet_values_allowed :
    ∀ v ∈ ARPABET_TO_RHUBARB.map Prod.snd, v ∈ RHUBARB_LETTERS := by decide

theorem arpaToToken_mem (a : String) : (arpaToToken a).r ∈ RHUBARB_LETTERS := by
  rw [arpaToToken]
  cases hlk : ARPABET_TO_RHUBARB.lookup ((a.toList.filter (fun c => !c.isDigit)).asString) with
  | none => simp [hlk, RHUBARB_LETTERS]
  | some c =>
    have hmem := lookup_mem hlk
    simp only [hlk, Option.getD_some]
    exact arpabet_values_allowed c hmem

theorem g2p_rule_letters :
    ∀ rule ∈ G2P_RULES, rule.2.1 ∈ RHUBARB_LETTERS := by
  intro rule hr
  simp only [G2P_RULES, List.mem_cons, List.not_mem_nil, or_false] at hr
  rcases hr with rfl|rfl|rfl|rfl|rfl|rfl|rfl|rfl|rfl|rfl|rfl|rfl|rfl|rfl|rfl|rfl|rfl|rfl|rfl|
    rfl|rfl|rfl <;> decide

theorem applyRules_mem {s : List Char} {r : Char} {n : ℕ}
    (h : applyRules s = some (r, n)) : r ∈ RHUBARB_LETTERS := by
  rw [applyRules] at h
  cases hf : G2P_RULES.find? (fun rule => rule.1 s) with
  | none => rw [hf] at h; simp at h
  | some rule =>
    rw [hf] at h
    simp only [Option.map_some', Option.some.injEq] at h
    have hmem := List.mem_of_find?_eq_some hf
    have := g2p_rule_letters rule hmem
    rw [h] at this
    exact this

theorem g2pLoop_mem :
    ∀ (fuel : ℕ) (s : List Char) (vs : Bool), ∀ p ∈ g2pLoop fuel s vs,
      p.r ∈ RHUBARB_LETTERS := by
  intro fuel
  induction fuel with
  | zero => intro s vs p hp; simp [g2pLoop] at hp
  | succ m ih =>
    intro s vs p hp
    cases s with
    | nil => simp [g2pLoop] at hp
    | cons c rest =>
      rw [g2pLoop] at hp
      cases hm : applyRules (c :: rest) with
      | none =>
        rw [hm] at hp
        exact ih _ _ p hp
      | some pr =>
        obtain ⟨r, adv⟩ := pr
        rw [hm] at hp
        simp only [List.mem_cons] at hp
        rcases hp with rfl | hp
        · exact applyRules_mem hm
        · exact ih _ _ p hp

theorem wordToRhubarb_mem (w : String) : ∀ p ∈ wordToRhubarb w, p.r ∈ RHUBARB_LETTERS := by
  intro p hp
  rw [wordToRhubarb] at hp
  split at hp
  · simp at hp
  · split at hp
    · next entry hlk =>
      simp only [List.mem_map] at hp
      obtain ⟨a, -, rfl⟩ := hp
      exact arpaToToken_mem a
    · dsimp only at hp
      split at hp
      · simp only [List.mem_cons, List.mem_singleton] at hp
        rcases hp with rfl | rfl | h
        · decide
        · decide
        · simp at h
      · exact g2pLoop_mem 60 _ false p hp

theorem emitPhonemes_values (b : ℚ) :
    ∀ (ps : List PhonemeToken) (ct : ℚ), ∀ c ∈ (emitPhonemes b ct ps).2,
      c.value ∈ ps.map PhonemeToken.r := by
  intro ps
  induction ps with
  | nil => intro ct c hc; simp [emitPhonemes] at hc
  | cons p rest ih =>
    intro ct c hc
    simp only [emitPhonemes, List.mem_cons] at hc
    rcases hc with rfl | hc
    · simp
    · simp only [List.map_cons, List.mem_cons]
      exact Or.inr (ih _ c hc)

theorem emitTokens_values (b : ℚ) :
    ∀ (toks : List WordToken) (ct : ℚ), ∀ c ∈ (emitTokens b ct toks).2,
      c.value = 'X' ∨ ∃ t ∈ toks, c.value ∈ t.phonemes.map PhonemeToken.r := by
  intro toks
  induction toks with
  | nil => intro ct c hc; simp [emitTokens] at hc
  | cons t rest ih =>
    intro ct c hc
    simp only [emitTokens, List.append_assoc, List.mem_append] at hc
    rcases hc with hc | hc | hc
    · exact Or.inr ⟨t, List.mem_cons_self t rest, emitPhonemes_values b _ _ c hc⟩
    · left
      split at hc
      · rw [List.mem_singleton] at hc
        subst hc
        rfl
      · simp at hc
    · rcases ih _ c hc with h | ⟨u, hu, hv⟩
      · exact Or.inl h
      · exact Or.inr ⟨u, List.mem_cons_of_mem t hu, hv⟩

theorem reconcile_values {D ct : ℚ} {cues : List MouthCue} :
    ∀ c ∈ reconcile D ct cues, c.value = 'X' ∨ ∃ d ∈ cues, c.value = d.value := by
  intro c hc
  rw [reconcile] at hc
  cases hlast : cues.getLast? with
  | none => rw [hlast] at hc; exact Or.inr ⟨c, hc, rfl⟩
  | some lastC =>
    have hmemlast : lastC ∈ cues := List.mem_of_getLast?_eq_some hlast
    rw [hlast] at hc
    dsimp only at hc
    split_ifs at hc with h1 h2 h3
    · rcases List.mem_append.mp hc with h | h
      · exact Or.inr ⟨c, List.mem_of_mem_dropLast h, rfl⟩
      · rw [List.mem_singleton] at h
        subst h
        exact Or.inr ⟨lastC, hmemlast, rfl⟩
    · rcases List.mem_append.mp hc with h | h
      · rcases List.mem_append.mp h with h' | h'
        · exact Or.inr ⟨c, List.mem_of_mem_dropLast h', rfl⟩
        · rw [List.mem_singleton] at h'
          subst h'
          exact Or.inr ⟨lastC, hmemlast, rfl⟩
      · rw [List.mem_singleton] at h
        subst h
        exact Or.inl rfl
    · rcases List.mem_append.mp hc with h | h
      · exact Or.inr ⟨c, List.mem_of_mem_dropLast h, rfl⟩
      · rw [List.mem_singleton] at h
        subst h
        exact Or.inr ⟨lastC, hmemlast, rfl⟩
    · exact Or.inr ⟨c, hc, rfl⟩

/-- Claim C9: every cue emitted by the estimator, on every path (dictionary
lookup, G2P rule fallback, default pair, pause and silence insertion, and
final-cue reconciliation), carries a viseme from the fixed 9-letter set
A B C D E F G H X. -/
theorem c9_closed_alphabet (text : String) (D : ℚ) :
    ∀ c ∈ estimateWithCMU text D, c.value ∈ RHUBARB_LETTERS := by
  intro c hc
  rw [estimateWithCMU] at hc
  split at hc
  · rw [List.mem_singleton] at hc
    subst hc
    show 'X' ∈ RHUBARB_LETTERS
    decide
  · rcases reconcile_values c hc with h | ⟨d, hd, hv⟩
    · rw [h]; decide
    · rcases emitTokens_values _ _ _ d hd with h | ⟨t, ht, hv'⟩
      · rw [hv, h]; decide
      · rw [wordTokens] at ht
        simp only [List.mem_map] at ht
        obtain ⟨u, -, rfl⟩ := ht
        simp only [List.mem_map] at hv'
        obtain ⟨p, hp, hpr⟩ := hv'
        rw [hv, ← hpr]
        exact wordToRhubarb_mem u.word p hp

theorem c9_witness :
    (⟨0, 1, 'X'⟩ : MouthCue) ∈ estimateWithCMU "" 1 ∧ 'X' ∈ RHUBARB_LETTERS := by
  have hmem : (⟨0, 1, 'X'⟩ : MouthCue) ∈ estimateWithCMU "" 1 := by
    rw [show estimateWithCMU "" 1 = [⟨0, 1, 'X'⟩] from rfl]
    exact List.mem_singleton_self _
  exact ⟨hmem, c9_closed_alphabet "" 1 _ hmem⟩

theorem frameRMS_nonneg (frame : List ℤ) : 0 ≤ frameRMS frame := Real.sqrt_nonneg _

theorem le_foldl_peak : ∀ (l : List ℝ) (p : ℝ),
    p ≤ l.foldl (fun p x => if x > p then x else p) p := by
  intro l
  induction l with
  | nil => intro p; exact le_rfl
  | cons y ys ih =>
    intro p
    rw [List.foldl_cons]
    refine le_trans ?_ (ih (if y > p then y else p))
    split
    · next hgt => exact le_of_lt hgt
    · exact le_rfl

theorem mem_le_foldl_peak : ∀ (l : List ℝ) (p x : ℝ), x ∈ l →
    x ≤ l.foldl (fun p x => if x > p then x else p) p := by
  intro l
  induction l with
  | nil => intro p x hx; simp at hx
  | cons y ys ih =>
    intro p x hx
    rw [List.foldl_cons]
    rcases List.mem_cons.mp hx with rfl | hx
    · refine le_trans ?_ (le_foldl_peak ys _)
      split
      · exact le_rfl
      · next hle => exact not_lt.mp hle
    · exact ih _ x hx

theorem foldl_peak_mem_or : ∀ (l : List ℝ) (p : ℝ),
    l.foldl (fun p x => if x > p then x else p) p = p ∨
      l.foldl (fun p x => if x > p then x else p) p ∈ l := by
  intro l
  induction l with
  | nil => intro p; exact Or.inl rfl
  | cons y ys ih =>
    intro p
    rw [List.foldl_cons]
    rcases ih (if y > p then y else p) with h | h
    · rw [h]
      split
      · exact Or.inr (List.mem_cons_self _ _)
      · exact Or.inl rfl
    · exact Or.inr (List.mem_cons_of_mem _ h)

theorem peakOf_nonneg (l : List ℝ) : 0 ≤ peakOf l := le_foldl_peak l 0

theorem le_peakOf {l : List ℝ} {x : ℝ} (hx : x ∈ l) : x ≤ peakOf l :=
  mem_le_foldl_peak l 0 x hx

theorem peakOf_mem_of_pos {l : List ℝ} (h : 0 < peakOf l) : peakOf l ∈ l := by
  rcases foldl_peak_mem_or l 0 with h0 | hmem
  · rw [peakOf] at h
    rw [h0] at h
    exact absurd h (lt_irrefl 0)
  · exact hmem

theorem samplesPerFrame_pos {sampleRate fps : ℕ} (hf : 0 < fps) (hs : 0 < sampleRate) :
    0 < samplesPerFrameOf sampleRate fps := by
  rw [samplesPerFrameOf]
  exact Nat.div_pos (by omega) hf

theorem rawEnvelope_pos_of_nonzero {pcm : List ℤ} {fps sampleRate : ℕ}
    (hf : 0 < fps) (hs : 0 < sampleRate) (h : ∃ s ∈ pcm, s ≠ 0) :
    ∃ e ∈ rawEnvelope pcm fps sampleRate, 0 < e := by
  obtain ⟨s, hsmem, hsne⟩ := h
  obtain ⟨⟨i, hi⟩, rfl⟩ := List.mem_iff_get.mp hsmem
  set spf := samplesPerFrameOf sampleRate fps with hspf_def
  have hspf : 0 < spf := samplesPerFrame_pos hf hs
  set f := i / spf with hf_def
  have hfs_le : f * spf ≤ i := Nat.div_mul_le_self i spf
  have hmod := Nat.mod_add_div i spf
  rw [← hf_def] at hmod
  have hi_lt : i - f * spf < spf := by
    have hsub : i - f * spf = i % spf := by
      rw [mul_comm]
      exact Nat.sub_eq_of_eq_add hmod.symm
    rw [hsub]
    exact Nat.mod_lt i hspf
  have hf_lt : f < numFramesOf pcm.length spf := by
    rw [numFramesOf]
    have h1 : pcm.length + spf - 1 = (pcm.length - 1) + spf := by omega
    rw [h1, Nat.add_div_right _ hspf]
    have : f ≤ (pcm.length - 1) / spf := Nat.div_le_div_right (by omega)
    omega
  refine ⟨frameRMS ((pcm.drop (f * spf)).take spf), ?_, ?_⟩
  · rw [rawEnvelope]
    exact List.mem_map_of_mem _ (List.mem_range.mpr hf_lt)
  · set frame := (pcm.drop (f * spf)).take spf with hframe
    have hjlen : i - f * spf < frame.length := by
      rw [hframe, List.length_take, List.length_drop]
      exact lt_min hi_lt (by omega)
    have hget : frame.get ⟨i - f * spf, hjlen⟩ = pcm.get ⟨i, hi⟩ := by
      simp only [hframe, List.get_eq_getElem, List.getElem_take, List.getElem_drop]
      congr 1
      exact Nat.add_sub_cancel' hfs_le
    have hmem_frame : pcm.get ⟨i, hi⟩ ∈ frame := by
      rw [← hget]
      exact List.get_mem frame _ hjlen
    have hnonneg : ∀ x ∈ frame.map (fun s => sampleToFloat s ^ 2), 0 ≤ x := by
      intro x hx
      simp only [List.mem_map] at hx
      obtain ⟨u, -, rfl⟩ := hx
      exact sq_nonneg _
    have hpos_elem : 0 < sampleToFloat (pcm.get ⟨i, hi⟩) ^ 2 := by
      have hne : sampleToFloat (pcm.get ⟨i, hi⟩) ≠ 0 := by
        rw [sampleToFloat]
        refine div_ne_zero ?_ (by norm_num)
        exact_mod_cast hsne
      positivity
    have hsum : sampleToFloat (pcm.get ⟨i, hi⟩) ^ 2 ≤
        (frame.map (fun s => sampleToFloat s ^ 2)).sum :=
      List.single_le_sum hnonneg _ (List.mem_map_of_mem _ hmem_frame)
    have hlen : (0 : ℝ) < frame.length := by
      have : 0 < frame.length := Nat.lt_of_le_of_lt (Nat.zero_le _) hjlen
      exact_mod_cast this
    rw [frameRMS]
    refine Real.sqrt_pos.mpr ?_
    exact div_pos (lt_of_lt_of_le hpos_elem hsum) hlen

theorem rawEnvelope_zero_of_silent {pcm : List ℤ} {fps sampleRate : ℕ}
    (h : ∀ s ∈ pcm, s = 0) : ∀ e ∈ rawEnvelope pcm fps sampleRate, e = 0 := by
  intro e he
  rw [rawEnvelope] at he
  simp only [List.mem_map, List.mem_range] at he
  obtain ⟨f, -, rfl⟩ := he
  rw [frameRMS]
  have hsum : (((pcm.drop (f * samplesPerFrameOf sampleRate fps)).take
      (samplesPerFrameOf sampleRate fps)).map (fun s => sampleToFloat s ^ 2)).sum = 0 := by
    refine List.sum_eq_zero ?_
    intro x hx
    simp only [List.mem_map] at hx
    obtain ⟨u, hu, rfl⟩ := hx
    have hu' : u ∈ pcm := List.mem_of_mem_drop (List.mem_of_mem_take hu)
    rw [h u hu', sampleToFloat]
    norm_num
  rw [hsum, zero_div, Real.sqrt_zero]

theorem smooth3Aux_zero : ∀ (l : List ℝ) (prev : ℝ), (∀ x ∈ l, x = 0) → prev = 0 →
    ∀ x ∈ smooth3Aux prev l, x = 0 := by
  intro l
  induction l with
  | nil => intro prev _ _ x hx; simp [smooth3Aux] at hx
  | cons y ys ih =>
    intro prev hall hprev x hx
    cases ys with
    | nil =>
      rw [smooth3Aux] at hx
      rw [List.mem_singleton] at hx
      subst hx
      exact hall x (List.mem_cons_self _ _)
    | cons z zs =>
      rw [smooth3Aux] at hx
      have hy : y = 0 := hall y (List.mem_cons_self _ _)
      have hz : z = 0 := hall z (List.mem_cons_of_mem _ (List.mem_cons_self _ _))
      have hnew : (prev + y + z) / 3 = 0 := by rw [hprev, hy, hz]; norm_num
      rcases List.mem_cons.mp hx with rfl | hx
      · exact hnew
      · exact ih _ (fun u hu => hall u (List.mem_cons_of_mem _ hu)) hnew x hx

theorem smooth3_zero {l : List ℝ} (h : ∀ x ∈ l, x = 0) : ∀ x ∈ smooth3 l, x = 0 := by
  cases l with
  | nil => intro x hx; simp [smooth3] at hx
  | cons y ys =>
    intro x hx
    rw [smooth3] at hx
    rcases List.mem_cons.mp hx with rfl | hx
    · exact h x (List.mem_cons_self _ _)
    · exact smooth3Aux_zero ys y (fun u hu => h u (List.mem_cons_of_mem _ hu))
        (h y (List.mem_cons_self _ _)) x hx

/-- Claim C3 (amended): for a buffer with at least one nonzero sample the
envelope is peak-normalised — after the normalisation pass (and before the
final 3-tap smoothing) its maximum is exactly 1 (1 is attained and bounds
every entry); for an all-zero (or empty) buffer the returned envelope is all
zeros and no division by zero occurs (the normalisation is skipped).  The
returned, smoothed envelope need not attain 1: smoothing runs after the
normalisation and averages the peak with its neighbours. -/
theorem c3_amended (pcm : List ℤ) (fps sampleRate : ℕ)
    (hf : 0 < fps) (hs : 0 < sampleRate) :
    ((∃ s ∈ pcm, s ≠ 0) →
      1 ∈ normalizeEnvelope (rawEnvelope pcm fps sampleRate) ∧
        ∀ x ∈ normalizeEnvelope (rawEnvelope pcm fps sampleRate), x ≤ 1) ∧
    ((∀ s ∈ pcm, s = 0) →
      ∀ x ∈ extractAmplitudeEnvelope pcm fps sampleRate, x = 0) := by
  constructor
  · intro h
    obtain ⟨e, hemem, hepos⟩ := rawEnvelope_pos_of_nonzero hf hs h
    have hpeak : 0 < peakOf (rawEnvelope pcm fps sampleRate) :=
      lt_of_lt_of_le hepos (le_peakOf hemem)
    rw [normalizeEnvelope, if_pos hpeak]
    constructor
    · refine List.mem_map.mpr ⟨peakOf (rawEnvelope pcm fps sampleRate),
        peakOf_mem_of_pos hpeak, ?_⟩
      exact div_self (ne_of_gt hpeak)
    · intro x hx
      simp only [List.mem_map] at hx
      obtain ⟨y, hy, rfl⟩ := hx
      exact (div_le_one hpeak).mpr (le_peakOf hy)
  · intro h
    rw [extractAmplitudeEnvelope]
    have hraw := @rawEnvelope_zero_of_silent pcm fps sampleRate h
    have hnorm : ∀ x ∈ normalizeEnvelope (rawEnvelope pcm fps sampleRate), x = 0 := by
      rw [normalizeEnvelope]
      split
      · intro x hx
        simp only [List.mem_map] at hx
        obtain ⟨y, hy, rfl⟩ := hx
        rw [hraw y hy]
        norm_num
      · exact hraw
    exact smooth3_zero hnorm

theorem c3_witness :
    (0 : ℕ) < 100 ∧ (0 : ℕ) < 24000 ∧ (∃ s ∈ [(20000 : ℤ)], s ≠ 0) ∧
      (1 : ℝ) ∈ normalizeEnvelope (rawEnvelope [(20000 : ℤ)] 100 24000) :=
  ⟨by norm_num, by norm_num, ⟨20000, by decide⟩,
    ((c3_amended [(20000 : ℤ)] 100 24000 (by norm_num) (by norm_num)).1
      ⟨20000, by decide⟩).1⟩

/-- The non-silent PCM buffer of the C3 counterexample: one loud frame
(240 samples of value 20000 at the default 240-samples-per-frame) between
two silent frames. -/
def c3Buffer : List ℤ :=
  List.replicate 240 0 ++ List.replicate 240 20000 ++ List.replicate 240 0

theorem frameRMS_replicate_zero (n : ℕ) : frameRMS (List.replicate n 0) = 0 := by
  rw [frameRMS]
  have hsum : ((List.replicate n (0 : ℤ)).map (fun s => sampleToFloat s ^ 2)).sum = 0 := by
    refine List.sum_eq_zero ?_
    intro x hx
    simp only [List.mem_map] at hx
    obtain ⟨u, hu, rfl⟩ := hx
    rw [List.eq_of_mem_replicate hu, sampleToFloat]
    norm_num
  rw [hsum, zero_div, Real.sqrt_zero]

theorem frameRMS_replicate_const {n : ℕ} (hn : 0 < n) {c : ℤ} (hc : 0 ≤ c) :
    frameRMS (List.replicate n c) = (c : ℝ) / 32768 := by
  rw [frameRMS, List.map_replicate, List.sum_replicate, List.length_replicate]
  rw [nsmul_eq_mul]
  have hne : (n : ℝ) ≠ 0 := by positivity
  have hx : (n : ℝ) * sampleToFloat c ^ 2 / n = sampleToFloat c ^ 2 := by
    field_simp
  rw [hx, sampleToFloat, Real.sqrt_sq (by positivity)]

/-- Claim C3 (counterexample): the non-silent buffer `c3Buffer` (silence,
then a loud constant frame, then silence) produces the returned envelope
`[0, 1/3, 0]`: the 3-tap smoothing runs after peak normalisation and
averages the interior peak down to 1/3, so the returned envelope's maximum
is 1/3, not 1. -/
theorem c3_counterexample :
    (∃ s ∈ c3Buffer, s ≠ 0) ∧
    extractAmplitudeEnvelope c3Buffer 100 24000 = [0, 1/3, 0] ∧
    peakOf (extractAmplitudeEnvelope c3Buffer 100 24000) = 1/3 ∧
    (1/3 : ℝ) ≠ 1 := by
  have hbuf : ∃ s ∈ c3Buffer, s ≠ 0 := by
    refine ⟨20000, ?_, by norm_num⟩
    rw [c3Buffer]
    refine List.mem_append.mpr (Or.inl (List.mem_append.mpr (Or.inr ?_)))
    exact List.mem_replicate.mpr ⟨by norm_num, rfl⟩
  have hspf : samplesPerFrameOf 24000 100 = 240 := by decide
  have hlen : c3Buffer.length = 720 := by
    rw [c3Buffer]
    simp only [List.length_append, List.length_replicate]
  have hnum : numFramesOf 720 240 = 3 := by decide
  have h240 : (List.replicate 240 (0 : ℤ)).length = 240 := List.length_replicate 240 0
  have h240' : (List.replicate 240 (20000 : ℤ)).length = 240 := List.length_replicate 240 20000
  have hdrop0 : c3Buffer.take 240 = List.replicate 240 (0 : ℤ) := by
    rw [c3Buffer, List.append_assoc]
    rw [List.take_left' h240]
  have hdrop1 : (c3Buffer.drop 240).take 240 = List.replicate 240 (20000 : ℤ) := by
    rw [c3Buffer, List.append_assoc, List.drop_left' h240]
    rw [List.take_left' h240']
  have hdrop2 : (c3Buffer.drop 480).take 240 = List.replicate 240 (0 : ℤ) := by
    rw [c3Buffer, List.append_assoc]
    rw [show (480 : ℕ) = 240 + 240 by norm_num, ← List.drop_drop]
    rw [List.drop_left' h240, List.drop_left' h240']
    rw [List.take_replicate]
    norm_num
  have hraw : rawEnvelope c3Buffer 100 24000 = [0, 625/1024, 0] := by
    rw [rawEnvelope]
    rw [hspf, hlen, hnum]
    rw [show List.range 3 = [0, 1, 2] from by decide]
    simp only [List.map_cons, List.map_nil]
    rw [show (0 : ℕ) * 240 = 0 from by norm_num, show (1 : ℕ) * 240 = 240 from by norm_num,
      show (2 : ℕ) * 240 = 480 from by norm_num]
    rw [List.drop_zero, hdrop0, hdrop1, hdrop2]
    rw [frameRMS_replicate_zero, frameRMS_replicate_const (by norm_num) (by norm_num)]
    norm_num
  have hpeak : peakOf [(0 : ℝ), 625/1024, 0] = 625/1024 := by
    rw [peakOf]
    simp only [List.foldl_cons, List.foldl_nil]
    rw [if_neg (show ¬((0 : ℝ) > 0) by norm_num)]
    rw [if_pos (show (625/1024 : ℝ) > 0 by norm_num)]
    rw [if_neg (show ¬((0 : ℝ) > 625/1024) by norm_num)]
  have hnorm : normalizeEnvelope [(0 : ℝ), 625/1024, 0] = [0, 1, 0] := by
    rw [normalizeEnvelope, if_pos (by rw [hpeak]; norm_num)]
    rw [hpeak]
    simp only [List.map_cons, List.map_nil]
    norm_num
  have hsm : smooth3 [(0 : ℝ), 1, 0] = [0, 1/3, 0] := by
    rw [smooth3, smooth3Aux]
    norm_num [smooth3Aux]
  have hext : extractAmplitudeEnvelope c3Buffer 100 24000 = [0, 1/3, 0] := by
    rw [extractAmplitudeEnvelope, hraw, hnorm, hsm]
  refine ⟨hbuf, hext, ?_, by norm_num⟩
  rw [hext, peakOf]
  simp only [List.foldl_cons, List.foldl_nil]
  rw [if_neg (show ¬((0 : ℝ) > 0) by norm_num)]
  rw [if_pos (show (1/3 : ℝ) > 0 by norm_num)]
  rw [if_neg (show ¬((0 : ℝ) > 1/3) by norm_num)]

/-- Both weight channels in `[0, 1]`. -/
def WeightsOK (w : Weights) : Prop :=
  0 ≤ w.mouthOpen ∧ w.mouthOpen ≤ 1 ∧ 0 ≤ w.mouthSmile ∧ w.mouthSmile ≤ 1

theorem viseme_lookup_X : VISEME_MAP.lookup "X" = some [] := rfl

theorem visemeTargets_bounds (v : String) :
    ∀ t ∈ visemeTargets v, 0 ≤ t.weight ∧ t.weight ≤ 1 := by
  intro t ht
  rw [visemeTargets] at ht
  cases hlk : VISEME_MAP.lookup v with
  | none =>
    rw [hlk, viseme_lookup_X] at ht
    simp at ht
  | some L =>
    rw [hlk] at ht
    simp only [Option.getD_some] at ht
    have hmem := lookup_mem hlk
    simp only [VISEME_MAP, List.map_cons, List.map_nil, List.mem_cons,
      List.not_mem_nil, or_false] at hmem
    rcases hmem with rfl|rfl|rfl|rfl|rfl|rfl|rfl|rfl|rfl <;> fin_cases ht <;> norm_num

theorem setWeight_smile (w : Weights) (name : String) (x : ℝ) :
    (setWeight w name x).mouthSmile = if name = "mouthSmile" then x else w.mouthSmile := by
  rw [setWeight]
  split_ifs with h1 h2 <;> simp_all

theorem setWeight_open (w : Weights) (name : String) (x : ℝ) :
    (setWeight w name x).mouthOpen = if name = "mouthOpen" then x else w.mouthOpen := by
  rw [setWeight]
  split_ifs with h1 <;> simp_all

theorem setWeight_ok {w : Weights} (hw : WeightsOK w) {x : ℝ} (h0 : 0 ≤ x) (h1 : x ≤ 1)
    (name : String) : WeightsOK (setWeight w name x) := by
  obtain ⟨a, b, c, d⟩ := hw
  rw [setWeight]
  split_ifs <;> exact ⟨by simp_all, by simp_all, by simp_all, by simp_all⟩

theorem baseWeights_ok (cv : String) : WeightsOK (baseWeights cv) := by
  rw [baseWeights]
  have h := visemeTargets_bounds cv
  generalize visemeTargets cv = ts at h
  have hstep : ∀ (l : List VisemeTarget) (w : Weights), (∀ t ∈ l, 0 ≤ t.weight ∧ t.weight ≤ 1) →
      WeightsOK w → WeightsOK (l.foldl (fun w t => setWeight w t.name t.weight) w) := by
    intro l
    induction l with
    | nil => intro w _ hw; exact hw
    | cons t ts ih =>
      intro w hl hw
      rw [List.foldl_cons]
      obtain ⟨h0, h1⟩ := hl t (List.mem_cons_self t ts)
      exact ih _ (fun u hu => hl u (List.mem_cons_of_mem t hu)) (setWeight_ok hw h0 h1 t.name)
  exact hstep ts ⟨0, 0⟩ h ⟨le_rfl, by norm_num, le_rfl, by norm_num⟩

theorem lookAheadWeights_ok (cv nv : String) : WeightsOK (lookAheadWeights cv nv) := by
  rw [lookAheadWeights]
  have hbase := baseWeights_ok cv
  split
  · have h := visemeTargets_bounds nv
    generalize visemeTargets nv = ts at h
    have hstep : ∀ (l : List VisemeTarget) (w : Weights), (∀ t ∈ l, 0 ≤ t.weight ∧ t.weight ≤ 1) →
        WeightsOK w → WeightsOK (l.foldl
          (fun w t => setWeight w t.name (min 1 (getWeight w t.name + t.weight * LOOK_AHEAD_WEIGHT)))
          w) := by
      intro l
      induction l with
      | nil => intro w _ hw; exact hw
      | cons t ts ih =>
        intro w hl hw
        rw [List.foldl_cons]
        obtain ⟨h0, h1⟩ := hl t (List.mem_cons_self t ts)
        have hg : 0 ≤ getWeight w t.name := by
          rw [getWeight]
          obtain ⟨a, b, c, d⟩ := hw
          split_ifs <;> first | exact a | exact c | exact le_rfl
        have hx0 : 0 ≤ min 1 (getWeight w t.name + t.weight * LOOK_AHEAD_WEIGHT) := by
          refine le_min (by norm_num) ?_
          have : (0 : ℝ) ≤ t.weight * LOOK_AHEAD_WEIGHT :=
            mul_nonneg h0 (by norm_num [LOOK_AHEAD_WEIGHT])
          linarith
        have hx1 : min 1 (getWeight w t.name + t.weight * LOOK_AHEAD_WEIGHT) ≤ 1 :=
          min_le_left _ _
        exact ih _ (fun u hu => hl u (List.mem_cons_of_mem t hu)) (setWeight_ok hw hx0 hx1 t.name)
    exact hstep ts (baseWeights cv) h hbase
  · exact hbase

theorem amplitudeGate_bounds {amp : ℝ} (h0 : 0 ≤ amp) (h1 : amp ≤ 1) :
    0 ≤ amplitudeGate amp ∧ amplitudeGate amp ≤ 1 := by
  rw [amplitudeGate]
  split
  · exact ⟨le_rfl, by norm_num⟩
  · next hge =>
    have hge' : SILENCE_THRESHOLD ≤ amp := not_lt.mp hge
    have hb0 : 0 ≤ (amp - SILENCE_THRESHOLD) / (1.0 - SILENCE_THRESHOLD) := by
      apply div_nonneg
      · linarith
      · norm_num [SILENCE_THRESHOLD]
    have hb1 : (amp - SILENCE_THRESHOLD) / (1.0 - SILENCE_THRESHOLD) ≤ 1 := by
      rw [div_le_one (by norm_num [SILENCE_THRESHOLD])]
      linarith
    exact ⟨Real.rpow_nonneg hb0 _, Real.rpow_le_one hb0 hb1 (by norm_num)⟩

theorem gateStep_smile (p : Bool) (amp : ℝ) (w : Weights) :
    (gateStep p amp w).mouthSmile = w.mouthSmile := by
  rw [gateStep]
  dsimp only
  split_ifs <;> rfl

theorem gateStep_ok {amp : ℝ} (h0 : 0 ≤ amp) (h1 : amp ≤ 1) (p : Bool) {w : Weights}
    (hw : WeightsOK w) : WeightsOK (gateStep p amp w) := by
  obtain ⟨a, b, c, d⟩ := hw
  obtain ⟨hg0, hg1⟩ := amplitudeGate_bounds h0 h1
  rw [gateStep]
  dsimp only
  split_ifs with hp hro hfl
  · refine ⟨mul_nonneg a (le_trans hg0 (le_max_left _ _)), ?_, c, d⟩
    have hm1 : max (amplitudeGate amp) CONSONANT_AMP_FLOOR ≤ 1 :=
      max_le hg1 (by norm_num [CONSONANT_AMP_FLOOR])
    calc w.mouthOpen * max (amplitudeGate amp) CONSONANT_AMP_FLOOR ≤ 1 * 1 :=
        mul_le_mul b hm1 (le_trans hg0 (le_max_left _ _)) (by norm_num)
      _ = 1 := by norm_num
  · refine ⟨mul_nonneg a (le_trans hg0 (le_max_left _ _)), ?_, c, d⟩
    have hm1 : max (amplitudeGate amp) 0 ≤ 1 := max_le hg1 (by norm_num)
    calc w.mouthOpen * max (amplitudeGate amp) 0 ≤ 1 * 1 :=
        mul_le_mul b hm1 (le_trans hg0 (le_max_left _ _)) (by norm_num)
      _ = 1 := by norm_num
  · exact ⟨a, b, c, d⟩
  · exact ⟨a, b, c, d⟩

theorem stepInfluence_bounds {current target delta : ℝ}
    (h3 : 0 ≤ current) (h4 : current ≤ 1) (h5 : 0 ≤ target) (h6 : target ≤ 1)
    (h7 : 0 ≤ delta) :
    0 ≤ stepInfluence current target delta ∧ stepInfluence current target delta ≤ 1 := by
  rw [stepInfluence, lerp]
  set rate : ℝ := if target > current then 120 else 22 with hrate
  have hratepos : (0 : ℝ) < rate := by
    rw [hrate]; split_ifs <;> norm_num
  have hexp0 : 0 < Real.exp (-rate * delta) := Real.exp_pos _
  have hrd : 0 ≤ rate * delta := mul_nonneg (le_of_lt hratepos) h7
  have hexp1 : Real.exp (-rate * delta) ≤ 1 := by
    rw [Real.exp_le_one_iff]
    nlinarith
  have ht0 : 0 ≤ 1 - Real.exp (-rate * delta) := by linarith
  have ht1 : 1 - Real.exp (-rate * delta) < 1 := by linarith
  constructor
  · nlinarith
  · nlinarith

/-- Claim C6: in the per-frame driver with the amplitude below the 0.07
silence threshold while playing, a viseme whose base jaw-open weight is 1.0
gets gated jaw-open target exactly 0; the amplitude gate never modifies the
mouthSmile (lip-spread) channel; and a viseme whose base jaw-open weight is
positive but below 0.25 instead receives the nonzero floor 0.10 × base, so
its shape does not fully vanish. -/
theorem c6_amplitude_gate (cv nv : String) (amp : ℝ) (hamp : amp < SILENCE_THRESHOLD) :
    ((baseWeights cv).mouthOpen = 1 → (computeTargets cv nv true amp).mouthOpen = 0) ∧
    ((computeTargets cv nv true amp).mouthSmile =
      (computeTargets cv nv false amp).mouthSmile) ∧
    (0 < (baseWeights cv).mouthOpen → (baseWeights cv).mouthOpen < 0.25 → nv = cv →
      (computeTargets cv nv true amp).mouthOpen =
        CONSONANT_AMP_FLOOR * (baseWeights cv).mouthOpen ∧
      0 < (computeTargets cv nv true amp).mouthOpen) := by
  have hgate0 : amplitudeGate amp = 0 := by
    rw [amplitudeGate, if_pos hamp]
  refine ⟨?_, ?_, ?_⟩
  · intro hbase
    have hla : (lookAheadWeights cv nv).mouthOpen = 1 := by
      rw [lookAheadWeights]
      split
      · have h := visemeTargets_bounds nv
        generalize visemeTargets nv = ts at h
        have hstep : ∀ (l : List VisemeTarget) (w : Weights), (∀ t ∈ l, 0 ≤ t.weight) →
            w.mouthOpen = 1 → (l.foldl
              (fun w t => setWeight w t.name
                (min 1 (getWeight w t.name + t.weight * LOOK_AHEAD_WEIGHT))) w).mouthOpen = 1 := by
          intro l
          induction l with
          | nil => intro w _ hw; exact hw
          | cons t ts ih =>
            intro w hl hw
            rw [List.foldl_cons]
            refine ih _ (fun u hu => hl u (List.mem_cons_of_mem t hu)) ?_
            rw [setWeight_open]
            split_ifs with hn
            · rw [hn, getWeight, if_pos rfl, hw]
              have : (0 : ℝ) ≤ t.weight * LOOK_AHEAD_WEIGHT :=
                mul_nonneg (hl t (List.mem_cons_self t ts)) (by norm_num [LOOK_AHEAD_WEIGHT])
              rw [min_eq_left (by linarith)]
            · exact hw
        exact hstep ts (baseWeights cv) (fun t ht => (h t ht).1) hbase
      · exact hbase
    rw [computeTargets, gateStep, if_pos rfl]
    rw [hla]
    rw [if_pos (by norm_num : (1 : ℝ) > 0)]
    simp only []
    rw [if_neg (by norm_num : ¬((1 : ℝ) < 0.25))]
    rw [hgate0]
    norm_num
  · rw [computeTargets, computeTargets, gateStep_smile, gateStep_smile]
  · intro hpos hlt hnv
    have hla : lookAheadWeights cv nv = baseWeights cv := by
      rw [lookAheadWeights]
      rw [if_neg (by simp [hnv])]
    rw [computeTargets, hla, gateStep, if_pos rfl]
    rw [if_pos hpos]
    simp only []
    rw [if_pos hlt, hgate0]
    rw [max_eq_right (by norm_num [CONSONANT_AMP_FLOOR])]
    constructor
    · rw [mul_comm]
    · have : (0 : ℝ) < CONSONANT_AMP_FLOOR := by norm_num [CONSONANT_AMP_FLOOR]
      positivity

theorem c6_witness :
    (0 : ℝ) < SILENCE_THRESHOLD ∧ (baseWeights "A").mouthOpen = 1 ∧
      (computeTargets "A" "X" true 0).mouthOpen = 0 := by
  have h1 : (0 : ℝ) < SILENCE_THRESHOLD := by norm_num [SILENCE_THRESHOLD]
  have h2 : (baseWeights "A").mouthOpen = 1 := by
    rw [baseWeights]
    rw [show visemeTargets "A" = [⟨"mouthOpen", 1.0⟩, ⟨"mouthSmile", 0.05⟩] from rfl]
    simp only [List.foldl_cons, List.foldl_nil]
    rw [setWeight_open, setWeight_open]
    rw [if_neg (by decide : ¬("mouthSmile" = "mouthOpen")), if_pos rfl]
    norm_num
  exact ⟨h1, h2, (c6_amplitude_gate "A" "X" 0 h1).1 h2⟩

/-- Claim C10: every per-frame target weight stays in `[0, 1]` for every
combination of current viseme, next viseme, playing flag and amplitude in
`[0, 1]` — the look-ahead addition is clamped at 1, the amplitude gate
multiplies by a factor in `[0, 1]` — and the asymmetric exponential lerp
step keeps a morph-target influence in `[0, 1]` whenever the current value
and the target are in `[0, 1]` and the frame delta is non-negative. -/
theorem c10_weights_bounded (cv nv : String) (p : Bool) (amp current target delta : ℝ)
    (h1 : 0 ≤ amp) (h2 : amp ≤ 1) (h3 : 0 ≤ current) (h4 : current ≤ 1)
    (h5 : 0 ≤ target) (h6 : target ≤ 1) (h7 : 0 ≤ delta) :
    (0 ≤ (computeTargets cv nv p amp).mouthOpen ∧ (computeTargets cv nv p amp).mouthOpen ≤ 1) ∧
    (0 ≤ (computeTargets cv nv p amp).mouthSmile ∧
      (computeTargets cv nv p amp).mouthSmile ≤ 1) ∧
    (0 ≤ stepInfluence current target delta ∧ stepInfluence current target delta ≤ 1) := by
  have hok : WeightsOK (computeTargets cv nv p amp) := by
    rw [computeTargets]
    exact gateStep_ok h1 h2 p (lookAheadWeights_ok cv nv)
  obtain ⟨a, b, c, d⟩ := hok
  exact ⟨⟨a, b⟩, ⟨c, d⟩, stepInfluence_bounds h3 h4 h5 h6 h7⟩

theorem c10_witness :
    ((0 : ℝ) ≤ 0 ∧ (0 : ℝ) ≤ 1 ∧ (0 : ℝ) ≤ 1) ∧
      0 ≤ (computeTargets "A" "X" true 0).mouthOpen ∧
      0 ≤ stepInfluence 0 1 0 ∧ stepInfluence 0 1 0 ≤ 1 := by
  have h := c10_weights_bounded "A" "X" true 0 0 1 0 (by norm_num) (by norm_num)
    (by norm_num) (by norm_num) (by norm_num) (by norm_num) (by norm_num)
  exact ⟨⟨le_rfl, by norm_num, by norm_num⟩, h.1.1, h.2.2.1, h.2.2.2⟩

end LipSync
